import Mathlib

set_option maxHeartbeats 1000000
set_option maxRecDepth 100000

/-
Verification of the r9cc parser (src/parse.rs) and code generator (src/codegen.rs).
The parser is embedded as a fuel-indexed family of total functions over a token list
with an explicit position cursor; a Rust panic is modelled as an `Except.error` value
carrying the data that the panic message would have carried, and an out-of-bounds
token index is modelled as its own error value. The code generator is embedded as a
function from an IR list to the list of emitted assembly lines, returning `none`
where the Rust code would panic (an `unwrap` of a missing operand or an out-of-range
register-table index).
-/

/-- Modelled from the spec: the token kinds of token.rs, which is not under src/.
The spec lists literals (number, string), identifiers, the keywords, and the
operator and punctuation kinds; the constructor names are the ones parse.rs
matches on. -/
inductive TokenType where
  | Num (val : Int)
  | Str (str : String) (len : Nat)
  | Ident (name : String)
  | Int
  | Char
  | If
  | Else
  | For
  | While
  | Do
  | Return
  | Extern
  | Sizeof
  | Alignof
  | Plus
  | Minus
  | Mul
  | Div
  | And
  | LeftAngleBracket
  | RightAngleBracket
  | EQ
  | NE
  | Logand
  | Logor
  | Equal
  | Colon
  | Semicolon
  | LeftParen
  | RightParen
  | LeftBracket
  | RightBracket
  | LeftBrace
  | RightBrace
  deriving DecidableEq

/-- Modelled from the spec: a token is a kind together with its raw source text
(the `input` field that parse.rs reads for error messages). -/
structure Token where
  ty : TokenType
  input : String
  deriving DecidableEq

/-- Modelled from the spec: the storage placeholder of sema.rs, which is not under
src/: `Local(offset)` or `Global(data, size, is-extern-flag)`. -/
inductive Scope where
  | Local (offset : Nat)
  | Global (data : String) (len : Nat) (isExt : Bool)
  deriving DecidableEq

mutual

inductive Ty where
  | mk (ty : Ctype) : Ty

inductive Ctype where
  | Int : Ctype
  | Char : Ctype
  | Ptr (ptrOf : Ty) : Ctype
  | Ary (aryOf : Ty) (len : Nat) : Ctype

end

mutual

inductive Node where
  | mk (op : NodeType) (ty : Ty) : Node

inductive NodeType where
  | Num (val : Int) : NodeType
  | Str (str : String) (len : Nat) : NodeType
  | Ident (name : String) : NodeType
  | Vardef (name : String) (init : Option Node) (scope : Scope) : NodeType
  | Lvar (scope : Scope) : NodeType
  | Gvar (name : String) (data : String) (len : Nat) : NodeType
  | BinOp (op : TokenType) (lhs : Node) (rhs : Node) : NodeType
  | If (cond : Node) (thenStmt : Node) (els : Option Node) : NodeType
  | For (init : Node) (cond : Node) (inc : Node) (body : Node) : NodeType
  | DoWhile (body : Node) (cond : Node) : NodeType
  | Addr (expr : Node) : NodeType
  | Deref (expr : Node) : NodeType
  | Logand (lhs : Node) (rhs : Node) : NodeType
  | Logor (lhs : Node) (rhs : Node) : NodeType
  | Return (stmt : Node) : NodeType
  | Sizeof (expr : Node) : NodeType
  | Alignof (expr : Node) : NodeType
  | Call (name : String) (args : List Node) : NodeType
  | Func (name : String) (args : List Node) (body : Node) (stacksize : Nat) : NodeType
  | CompStmt (stmts : List Node) : NodeType
  | ExprStmt (expr : Node) : NodeType
  | StmtExpr (body : Node) : NodeType
  | Null : NodeType

end

/-- `Node::new`: wrap a NodeType with the default type (`Int`). -/
def Node.new (op : NodeType) : Node := Node.mk op (Ty.mk Ctype.Int)

/-- `Node::new_int`. -/
def Node.new_int (val : Int) : Node := Node.new (NodeType.Num val)

/-- `Node::new_binop`. -/
def Node.new_binop (ty : TokenType) (lhs rhs : Node) : Node :=
  Node.new (NodeType.BinOp ty lhs rhs)

/-- The data a parse.rs panic would report, one constructor per panic site, plus
`oob` for an out-of-bounds `tokens[pos]` index and `fuelOut` for exhaustion of the
fuel parameter (an artifact of the embedding, never reached with enough fuel).
`expected` is the panic of `expect`, which formats the expected kind and the actual
kind (each twice) and does not include the raw source text. -/
inductive ParseErr where
  | oob (pos : Nat)
  | expected (ty : TokenType) (actual : TokenType)
  | numberExpected (input : String)
  | typenameExpected (input : String)
  | varNameExpected (input : String)
  | paramNameExpected (input : String)
  | funcOrVarNameExpected (input : String)
  | arrayNumberExpected
  | fuelOut
  deriving DecidableEq

/-- The indexing `&tokens[pos]`, which panics when `pos` is out of range. -/
def tokGet (tokens : List Token) (pos : Nat) : Except ParseErr Token :=
  match tokens[pos]? with
  | some t => Except.ok t
  | none => Except.error (ParseErr.oob pos)

/-- `expect` from parse.rs: advance past the token `t` (already read at `pos`) if it
has kind `ty`, otherwise panic with the expected kind and the actual kind. -/
def expect (ty : TokenType) (t : Token) (pos : Nat) : Except ParseErr Nat :=
  if t.ty = ty then Except.ok (pos + 1)
  else Except.error (ParseErr.expected ty t.ty)

/-- `consume` from parse.rs: advance past the token at `pos` if it has kind `ty`,
reporting whether it did.  It reads `tokens[pos]` unconditionally, so it fails at
the end of the token list. -/
def consume (ty : TokenType) (tokens : List Token) (pos : Nat) :
    Except ParseErr (Bool × Nat) := do
  let t ← tokGet tokens pos
  if t.ty = ty then pure (true, pos + 1) else pure (false, pos)

/-- `get_type` from parse.rs. -/
def get_type (t : Token) : Option Ty :=
  match t.ty with
  | TokenType.Int => some (Ty.mk Ctype.Int)
  | TokenType.Char => some (Ty.mk Ctype.Char)
  | _ => none

/-- The `while consume(Mul)` pointer-wrapping loop of `ctype`. -/
def ctypePtrLoop (fuel : Nat) (tokens : List Token) (pos : Nat) (ty : Ty) :
    Except ParseErr (Ty × Nat) :=
  match fuel with
  | 0 => Except.error ParseErr.fuelOut
  | f + 1 => do
      let (b, pos') ← consume TokenType.Mul tokens pos
      if b then ctypePtrLoop f tokens pos' (Ty.mk (Ctype.Ptr ty)) else pure (ty, pos')

/-- `ctype` from parse.rs: a base type keyword plus zero or more trailing `*`. -/
def ctype (fuel : Nat) (tokens : List Token) (pos : Nat) : Except ParseErr (Ty × Nat) := do
  let t ← tokGet tokens pos
  match get_type t with
  | some ty => ctypePtrLoop fuel tokens (pos + 1) ty
  | none => Except.error (ParseErr.typenameExpected t.input)

/-- `param` from parse.rs: a type followed by a parameter name. -/
def param (fuel : Nat) (tokens : List Token) (pos : Nat) : Except ParseErr (Node × Nat) := do
  let (ty, pos) ← ctype fuel tokens pos
  let t ← tokGet tokens pos
  match t.ty with
  | TokenType.Ident name => pure (Node.mk (NodeType.Vardef name none (Scope.Local 0)) ty, pos + 1)
  | _ => Except.error (ParseErr.paramNameExpected t.input)

mutual

/-- Modelled from the spec: `size_of` lives in util.rs, which is not under src/; the
spec only says the size of a global definition is computed from its type.  The usual
C-like sizes are used; no claim depends on the values. -/
def size_of : Ty → Nat
  | Ty.mk c => size_ofC c

def size_ofC : Ctype → Nat
  | Ctype.Int => 4
  | Ctype.Char => 1
  | Ctype.Ptr _ => 8
  | Ctype.Ary t len => size_of t * len

end

/-- The Rust `as usize` cast applied to an array length literal in `read_array`. -/
def usizeOfInt (n : Int) : Nat := (n % ((2 : Int) ^ 64)).toNat

mutual

/-- `primary` from parse.rs. -/
def primary (fuel : Nat) (tokens : List Token) (pos : Nat) : Except ParseErr (Node × Nat) :=
  match fuel with
  | 0 => Except.error ParseErr.fuelOut
  | f + 1 => do
      let t ← tokGet tokens pos
      let pos := pos + 1
      match t.ty with
      | TokenType.Num val => pure (Node.mk (NodeType.Num val) (Ty.mk Ctype.Int), pos)
      | TokenType.Str str len =>
          pure (Node.mk (NodeType.Str str len)
            (Ty.mk (Ctype.Ary (Ty.mk Ctype.Char) str.length)), pos)
      | TokenType.Ident name => do
          let (b, pos) ← consume TokenType.LeftParen tokens pos
          if !b then
            pure (Node.new (NodeType.Ident name), pos)
          else do
            let (b2, pos) ← consume TokenType.RightParen tokens pos
            if b2 then
              pure (Node.new (NodeType.Call name []), pos)
            else do
              let (arg, pos) ← assign f tokens pos
              let (args, pos) ← callArgs f tokens pos [arg]
              let t2 ← tokGet tokens pos
              let pos ← expect TokenType.RightParen t2 pos
              pure (Node.new (NodeType.Call name args), pos)
      | TokenType.LeftParen => do
          let (b, pos) ← consume TokenType.LeftBrace tokens pos
          if b then do
            let (st, pos) ← compound_stmt f tokens pos
            let t2 ← tokGet tokens pos
            let pos ← expect TokenType.RightParen t2 pos
            pure (Node.new (NodeType.StmtExpr st), pos)
          else do
            let (node, pos) ← assign f tokens pos
            let t2 ← tokGet tokens pos
            let pos ← expect TokenType.RightParen t2 pos
            pure (node, pos)
      | _ => Except.error (ParseErr.numberExpected t.input)
termination_by structural fuel

/-- The `while consume(Colon)` call-argument loop inside `primary`. -/
def callArgs (fuel : Nat) (tokens : List Token) (pos : Nat) (args : List Node) :
    Except ParseErr (List Node × Nat) :=
  match fuel with
  | 0 => Except.error ParseErr.fuelOut
  | f + 1 => do
      let (b, pos) ← consume TokenType.Colon tokens pos
      if b then do
        let (arg, pos) ← assign f tokens pos
        callArgs f tokens pos (args ++ [arg])
      else pure (args, pos)
termination_by structural fuel

/-- `postfix` from parse.rs. -/
def postfixExpr (fuel : Nat) (tokens : List Token) (pos : Nat) : Except ParseErr (Node × Nat) :=
  match fuel with
  | 0 => Except.error ParseErr.fuelOut
  | f + 1 => do
      let (lhs, pos) ← primary f tokens pos
      postfixLoop f tokens pos lhs
termination_by structural fuel

/-- The `while consume(LeftBracket)` indexing loop of `postfix`: `a[i]` desugars to
`Deref(BinOp(Plus, a, i))`. -/
def postfixLoop (fuel : Nat) (tokens : List Token) (pos : Nat) (lhs : Node) :
    Except ParseErr (Node × Nat) :=
  match fuel with
  | 0 => Except.error ParseErr.fuelOut
  | f + 1 => do
      let (b, pos) ← consume TokenType.LeftBracket tokens pos
      if b then do
        let (idx, pos) ← assign f tokens pos
        let lhs := Node.new (NodeType.Deref (Node.new_binop TokenType.Plus lhs idx))
        let t ← tokGet tokens pos
        let pos ← expect TokenType.RightBracket t pos
        postfixLoop f tokens pos lhs
      else pure (lhs, pos)
termination_by structural fuel

/-- `unary` from parse.rs: prefix `*` and `&` delegate to `mul`, `sizeof` and
`_Alignof` delegate to `unary` itself, otherwise `postfix`. -/
def unary (fuel : Nat) (tokens : List Token) (pos : Nat) : Except ParseErr (Node × Nat) :=
  match fuel with
  | 0 => Except.error ParseErr.fuelOut
  | f + 1 => do
      let (b, pos') ← consume TokenType.Mul tokens pos
      if b then do
        let (e, p) ← mul f tokens pos'
        pure (Node.new (NodeType.Deref e), p)
      else do
        let (b, pos') ← consume TokenType.And tokens pos
        if b then do
          let (e, p) ← mul f tokens pos'
          pure (Node.new (NodeType.Addr e), p)
        else do
          let (b, pos') ← consume TokenType.Sizeof tokens pos
          if b then do
            let (e, p) ← unary f tokens pos'
            pure (Node.new (NodeType.Sizeof e), p)
          else do
            let (b, pos') ← consume TokenType.Alignof tokens pos
            if b then do
              let (e, p) ← unary f tokens pos'
              pure (Node.new (NodeType.Alignof e), p)
            else postfixExpr f tokens pos
termination_by structural fuel

/-- `mul` from parse.rs. -/
def mul (fuel : Nat) (tokens : List Token) (pos : Nat) : Except ParseErr (Node × Nat) :=
  match fuel with
  | 0 => Except.error ParseErr.fuelOut
  | f + 1 => do
      let (lhs, pos) ← unary f tokens pos
      mulLoop f tokens pos lhs
termination_by structural fuel

/-- The `*` / `/` loop of `mul`; it checks for the end of the token list before
reading the current token. -/
def mulLoop (fuel : Nat) (tokens : List Token) (pos : Nat) (lhs : Node) :
    Except ParseErr (Node × Nat) :=
  match fuel with
  | 0 => Except.error ParseErr.fuelOut
  | f + 1 =>
      if tokens.length = pos then pure (lhs, pos)
      else do
        let t ← tokGet tokens pos
        if t.ty ≠ TokenType.Mul ∧ t.ty ≠ TokenType.Div then pure (lhs, pos)
        else do
          let (rhs, pos') ← unary f tokens (pos + 1)
          mulLoop f tokens pos' (Node.new_binop t.ty lhs rhs)
termination_by structural fuel

/-- `add` from parse.rs. -/
def add (fuel : Nat) (tokens : List Token) (pos : Nat) : Except ParseErr (Node × Nat) :=
  match fuel with
  | 0 => Except.error ParseErr.fuelOut
  | f + 1 => do
      let (lhs, pos) ← mul f tokens pos
      addLoop f tokens pos lhs
termination_by structural fuel

/-- The `+` / `-` loop of `add`; like `mulLoop` it checks for the end of the token
list before reading the current token. -/
def addLoop (fuel : Nat) (tokens : List Token) (pos : Nat) (lhs : Node) :
    Except ParseErr (Node × Nat) :=
  match fuel with
  | 0 => Except.error ParseErr.fuelOut
  | f + 1 =>
      if tokens.length = pos then pure (lhs, pos)
      else do
        let t ← tokGet tokens pos
        if t.ty ≠ TokenType.Plus ∧ t.ty ≠ TokenType.Minus then pure (lhs, pos)
        else do
          let (rhs, pos') ← mul f tokens (pos + 1)
          addLoop f tokens pos' (Node.new_binop t.ty lhs rhs)
termination_by structural fuel

/-- `rel` from parse.rs. -/
def rel (fuel : Nat) (tokens : List Token) (pos : Nat) : Except ParseErr (Node × Nat) :=
  match fuel with
  | 0 => Except.error ParseErr.fuelOut
  | f + 1 => do
      let (lhs, pos) ← add f tokens pos
      relLoop f tokens pos lhs
termination_by structural fuel

/-- The loop of `rel`: `<` keeps its operands, `>` swaps them, and both build a
`LeftAngleBracket` BinOp. -/
def relLoop (fuel : Nat) (tokens : List Token) (pos : Nat) (lhs : Node) :
    Except ParseErr (Node × Nat) :=
  match fuel with
  | 0 => Except.error ParseErr.fuelOut
  | f + 1 => do
      let t ← tokGet tokens pos
      if t.ty = TokenType.LeftAngleBracket then do
        let (rhs, pos') ← add f tokens (pos + 1)
        relLoop f tokens pos' (Node.new_binop TokenType.LeftAngleBracket lhs rhs)
      else if t.ty = TokenType.RightAngleBracket then do
        let (rhs, pos') ← add f tokens (pos + 1)
        relLoop f tokens pos' (Node.new_binop TokenType.LeftAngleBracket rhs lhs)
      else pure (lhs, pos)
termination_by structural fuel

/-- `equality` from parse.rs. -/
def equality (fuel : Nat) (tokens : List Token) (pos : Nat) : Except ParseErr (Node × Nat) :=
  match fuel with
  | 0 => Except.error ParseErr.fuelOut
  | f + 1 => do
      let (lhs, pos) ← rel f tokens pos
      equalityTail f tokens pos lhs
termination_by structural fuel

/-- The body of `equality`'s `loop`: it reads the current token once, checks it
against `==` and then (the same, already-read token) against `!=`, and returns
unconditionally, so at most one comparison is parsed per invocation. -/
def equalityTail (fuel : Nat) (tokens : List Token) (pos : Nat) (lhs : Node) :
    Except ParseErr (Node × Nat) :=
  match fuel with
  | 0 => Except.error ParseErr.fuelOut
  | f + 1 => do
      let t ← tokGet tokens pos
      let (lhs, pos) ← (if t.ty = TokenType.EQ then do
          let (rhs, p) ← rel f tokens (pos + 1)
          pure (Node.new_binop TokenType.EQ lhs rhs, p)
        else pure (lhs, pos) : Except ParseErr (Node × Nat))
      let (lhs, pos) ← (if t.ty = TokenType.NE then do
          let (rhs, p) ← rel f tokens (pos + 1)
          pure (Node.new_binop TokenType.NE lhs rhs, p)
        else pure (lhs, pos) : Except ParseErr (Node × Nat))
      pure (lhs, pos)
termination_by structural fuel

/-- `logand` from parse.rs. -/
def logand (fuel : Nat) (tokens : List Token) (pos : Nat) : Except ParseErr (Node × Nat) :=
  match fuel with
  | 0 => Except.error ParseErr.fuelOut
  | f + 1 => do
      let (lhs, pos) ← equality f tokens pos
      logandLoop f tokens pos lhs
termination_by structural fuel

/-- The `&&` loop of `logand`. -/
def logandLoop (fuel : Nat) (tokens : List Token) (pos : Nat) (lhs : Node) :
    Except ParseErr (Node × Nat) :=
  match fuel with
  | 0 => Except.error ParseErr.fuelOut
  | f + 1 => do
      let t ← tokGet tokens pos
      if t.ty ≠ TokenType.Logand then pure (lhs, pos)
      else do
        let (rhs, pos') ← equality f tokens (pos + 1)
        logandLoop f tokens pos' (Node.new (NodeType.Logand lhs rhs))
termination_by structural fuel

/-- `logor` from parse.rs. -/
def logor (fuel : Nat) (tokens : List Token) (pos : Nat) : Except ParseErr (Node × Nat) :=
  match fuel with
  | 0 => Except.error ParseErr.fuelOut
  | f + 1 => do
      let (lhs, pos) ← logand f tokens pos
      logorLoop f tokens pos lhs
termination_by structural fuel

/-- The `||` loop of `logor`. -/
def logorLoop (fuel : Nat) (tokens : List Token) (pos : Nat) (lhs : Node) :
    Except ParseErr (Node × Nat) :=
  match fuel with
  | 0 => Except.error ParseErr.fuelOut
  | f + 1 => do
      let t ← tokGet tokens pos
      if t.ty ≠ TokenType.Logor then pure (lhs, pos)
      else do
        let (rhs, pos') ← logand f tokens (pos + 1)
        logorLoop f tokens pos' (Node.new (NodeType.Logor lhs rhs))
termination_by structural fuel

/-- `assign` from parse.rs: a `logor` expression, optionally followed by `=` and a
second `logor` expression as the right-hand side. -/
def assign (fuel : Nat) (tokens : List Token) (pos : Nat) : Except ParseErr (Node × Nat) :=
  match fuel with
  | 0 => Except.error ParseErr.fuelOut
  | f + 1 => do
      let (lhs, pos) ← logor f tokens pos
      let (b, pos) ← consume TokenType.Equal tokens pos
      if b then do
        let (rhs, pos) ← logor f tokens pos
        pure (Node.new_binop TokenType.Equal lhs rhs, pos)
      else pure (lhs, pos)
termination_by structural fuel

/-- The `while consume(LeftBracket)` dimension-collecting loop of `read_array`; each
dimension must be a numeric-literal `primary`. -/
def readArrayLoop (fuel : Nat) (tokens : List Token) (pos : Nat) (v : List Nat) :
    Except ParseErr (List Nat × Nat) :=
  match fuel with
  | 0 => Except.error ParseErr.fuelOut
  | f + 1 => do
      let (b, pos) ← consume TokenType.LeftBracket tokens pos
      if b then do
        let (len, pos) ← primary f tokens pos
        match len with
        | Node.mk (NodeType.Num n) _ => do
            let t ← tokGet tokens pos
            let pos ← expect TokenType.RightBracket t pos
            readArrayLoop f tokens pos (v ++ [usizeOfInt n])
        | _ => Except.error ParseErr.arrayNumberExpected
      else pure (v, pos)
termination_by structural fuel

/-- `read_array` from parse.rs: collect the dimensions, then wrap the base type from
the inside out. -/
def read_array (fuel : Nat) (tokens : List Token) (pos : Nat) (ty : Ty) :
    Except ParseErr (Ty × Nat) :=
  match fuel with
  | 0 => Except.error ParseErr.fuelOut
  | f + 1 => do
      let (v, pos) ← readArrayLoop f tokens pos []
      pure (v.foldl (fun t len => Ty.mk (Ctype.Ary t len)) ty, pos)
termination_by structural fuel

/-- `decl` from parse.rs. -/
def decl (fuel : Nat) (tokens : List Token) (pos : Nat) : Except ParseErr (Node × Nat) :=
  match fuel with
  | 0 => Except.error ParseErr.fuelOut
  | f + 1 => do
      let (ty, pos) ← ctype f tokens pos
      let t ← tokGet tokens pos
      match t.ty with
      | TokenType.Ident name => do
          let pos := pos + 1
          let (ty, pos) ← read_array f tokens pos ty
          let (b, pos) ← consume TokenType.Equal tokens pos
          let (init, pos) ← (if b then do
              let (e, p) ← assign f tokens pos
              pure (some e, p)
            else pure (none, pos) : Except ParseErr (Option Node × Nat))
          let t2 ← tokGet tokens pos
          let pos ← expect TokenType.Semicolon t2 pos
          pure (Node.mk (NodeType.Vardef name init (Scope.Local 0)) ty, pos)
      | _ => Except.error (ParseErr.varNameExpected t.input)
termination_by structural fuel

/-- `expr_stmt` from parse.rs. -/
def expr_stmt (fuel : Nat) (tokens : List Token) (pos : Nat) : Except ParseErr (Node × Nat) :=
  match fuel with
  | 0 => Except.error ParseErr.fuelOut
  | f + 1 => do
      let (e, pos) ← assign f tokens pos
      let node := Node.new (NodeType.ExprStmt e)
      let t ← tokGet tokens pos
      let pos ← expect TokenType.Semicolon t pos
      pure (node, pos)
termination_by structural fuel

/-- `stmt` from parse.rs. -/
def stmt (fuel : Nat) (tokens : List Token) (pos : Nat) : Except ParseErr (Node × Nat) :=
  match fuel with
  | 0 => Except.error ParseErr.fuelOut
  | f + 1 => do
      let t ← tokGet tokens pos
      match t.ty with
      | TokenType.Int => decl f tokens pos
      | TokenType.Char => decl f tokens pos
      | TokenType.If => do
          let pos := pos + 1
          let t1 ← tokGet tokens pos
          let pos ← expect TokenType.LeftParen t1 pos
          let (cond, pos) ← assign f tokens pos
          let t2 ← tokGet tokens pos
          let pos ← expect TokenType.RightParen t2 pos
          let (thenN, pos) ← stmt f tokens pos
          let (b, pos) ← consume TokenType.Else tokens pos
          if b then do
            let (elsN, pos) ← stmt f tokens pos
            pure (Node.new (NodeType.If cond thenN (some elsN)), pos)
          else
            pure (Node.new (NodeType.If cond thenN none), pos)
      | TokenType.For => do
          let pos := pos + 1
          let t1 ← tokGet tokens pos
          let pos ← expect TokenType.LeftParen t1 pos
          let t2 ← tokGet tokens pos
          let (init, pos) ← (match get_type t2 with
            | some _ => decl f tokens pos
            | none => expr_stmt f tokens pos)
          let (cond, pos) ← assign f tokens pos
          let t3 ← tokGet tokens pos
          let pos ← expect TokenType.Semicolon t3 pos
          let (incE, pos) ← assign f tokens pos
          let inc := Node.new (NodeType.ExprStmt incE)
          let t4 ← tokGet tokens pos
          let pos ← expect TokenType.RightParen t4 pos
          let (body, pos) ← stmt f tokens pos
          pure (Node.new (NodeType.For init cond inc body), pos)
      | TokenType.While => do
          let pos := pos + 1
          let t1 ← tokGet tokens pos
          let pos ← expect TokenType.LeftParen t1 pos
          let init := Node.new NodeType.Null
          let inc := Node.new NodeType.Null
          let (cond, pos) ← assign f tokens pos
          let t2 ← tokGet tokens pos
          let pos ← expect TokenType.RightParen t2 pos
          let (body, pos) ← stmt f tokens pos
          pure (Node.new (NodeType.For init cond inc body), pos)
      | TokenType.Do => do
          let pos := pos + 1
          let (body, pos) ← stmt f tokens pos
          let t1 ← tokGet tokens pos
          let pos ← expect TokenType.While t1 pos
          let t2 ← tokGet tokens pos
          let pos ← expect TokenType.LeftParen t2 pos
          let (cond, pos) ← assign f tokens pos
          let t3 ← tokGet tokens pos
          let pos ← expect TokenType.RightParen t3 pos
          let t4 ← tokGet tokens pos
          let pos ← expect TokenType.Semicolon t4 pos
          pure (Node.new (NodeType.DoWhile body cond), pos)
      | TokenType.Return => do
          let pos := pos + 1
          let (e, pos) ← assign f tokens pos
          let t1 ← tokGet tokens pos
          let pos ← expect TokenType.Semicolon t1 pos
          pure (Node.new (NodeType.Return e), pos)
      | TokenType.LeftBrace => do
          let pos := pos + 1
          let (stmts, pos) ← stmtList f tokens pos []
          pure (Node.new (NodeType.CompStmt stmts), pos)
      | TokenType.Semicolon => pure (Node.new NodeType.Null, pos + 1)
      | _ => do
          let (e, pos) ← assign f tokens pos
          let node := Node.new (NodeType.ExprStmt e)
          let t1 ← tokGet tokens pos
          let pos ← expect TokenType.Semicolon t1 pos
          pure (node, pos)
termination_by structural fuel

/-- The `while !consume(RightBrace)` statement loop shared by the block case of
`stmt` and by `compound_stmt`. -/
def stmtList (fuel : Nat) (tokens : List Token) (pos : Nat) (stmts : List Node) :
    Except ParseErr (List Node × Nat) :=
  match fuel with
  | 0 => Except.error ParseErr.fuelOut
  | f + 1 => do
      let (b, pos) ← consume TokenType.RightBrace tokens pos
      if b then pure (stmts, pos)
      else do
        let (s, pos') ← stmt f tokens pos
        stmtList f tokens pos' (stmts ++ [s])
termination_by structural fuel

/-- `compound_stmt` from parse.rs. -/
def compound_stmt (fuel : Nat) (tokens : List Token) (pos : Nat) :
    Except ParseErr (Node × Nat) :=
  match fuel with
  | 0 => Except.error ParseErr.fuelOut
  | f + 1 => do
      let (stmts, pos) ← stmtList f tokens pos []
      pure (Node.new (NodeType.CompStmt stmts), pos)
termination_by structural fuel

end

/-- The `while consume(Colon)` parameter loop of `toplevel`. -/
def paramList (fuel : Nat) (tokens : List Token) (pos : Nat) (args : List Node) :
    Except ParseErr (List Node × Nat) :=
  match fuel with
  | 0 => Except.error ParseErr.fuelOut
  | f + 1 => do
      let (b, pos) ← consume TokenType.Colon tokens pos
      if b then do
        let (p, pos) ← param fuel tokens pos
        paramList f tokens pos (args ++ [p])
      else pure (args, pos)

/-- `toplevel` from parse.rs: an optional `extern`, a type, a name, then either a
function definition or a global variable declaration. -/
def toplevel (fuel : Nat) (tokens : List Token) (pos : Nat) : Except ParseErr (Node × Nat) := do
  let (isExt, pos) ← consume TokenType.Extern tokens pos
  let (ty, pos) ← ctype fuel tokens pos
  let t ← tokGet tokens pos
  match t.ty with
  | TokenType.Ident name => do
      let pos := pos + 1
      let (b, pos) ← consume TokenType.LeftParen tokens pos
      if b then do
        let (b2, pos) ← consume TokenType.RightParen tokens pos
        let (args, pos) ← (if b2 then pure ([], pos) else do
            let (a, pos) ← param fuel tokens pos
            let (args, pos) ← paramList fuel tokens pos [a]
            let t2 ← tokGet tokens pos
            let pos ← expect TokenType.RightParen t2 pos
            pure (args, pos) : Except ParseErr (List Node × Nat))
        let t3 ← tokGet tokens pos
        let pos ← expect TokenType.LeftBrace t3 pos
        let (body, pos) ← compound_stmt fuel tokens pos
        pure (Node.new (NodeType.Func name args body 0), pos)
      else do
        let (ty2, pos) ← read_array fuel tokens pos ty
        let node := (if isExt then
            Node.mk (NodeType.Vardef name none (Scope.Global "" 0 true)) ty2
          else
            Node.mk (NodeType.Vardef name none (Scope.Global "" (size_of ty2) false)) ty2)
        let t2 ← tokGet tokens pos
        let pos ← expect TokenType.Semicolon t2 pos
        pure (node, pos)
  | _ => Except.error (ParseErr.funcOrVarNameExpected t.input)

/-- The `while tokens.len() != pos` loop of `parse`. -/
def parseLoop (fuel : Nat) (tokens : List Token) (pos : Nat) (v : List Node) :
    Except ParseErr (List Node) :=
  match fuel with
  | 0 => Except.error ParseErr.fuelOut
  | f + 1 =>
      if tokens.length = pos then pure v
      else do
        let (n, pos') ← toplevel fuel tokens pos
        parseLoop f tokens pos' (v ++ [n])

/-- `parse` from parse.rs: the sequence of toplevel nodes. -/
def parse (fuel : Nat) (tokens : List Token) : Except ParseErr (List Node) :=
  parseLoop fuel tokens 0 []

mutual

/-- Whether a node contains a `BinOp` whose operator is `RightAngleBracket`. -/
def hasRAB : Node → Bool
  | Node.mk op _ => hasRABOp op

def hasRABOp : NodeType → Bool
  | NodeType.Num _ => false
  | NodeType.Str _ _ => false
  | NodeType.Ident _ => false
  | NodeType.Vardef _ init _ => hasRABOpt init
  | NodeType.Lvar _ => false
  | NodeType.Gvar _ _ _ => false
  | NodeType.BinOp TokenType.RightAngleBracket _ _ => true
  | NodeType.BinOp _ lhs rhs => hasRAB lhs || hasRAB rhs
  | NodeType.If cond thenStmt els => hasRAB cond || hasRAB thenStmt || hasRABOpt els
  | NodeType.For init cond inc body => hasRAB init || hasRAB cond || hasRAB inc || hasRAB body
  | NodeType.DoWhile body cond => hasRAB body || hasRAB cond
  | NodeType.Addr e => hasRAB e
  | NodeType.Deref e => hasRAB e
  | NodeType.Logand lhs rhs => hasRAB lhs || hasRAB rhs
  | NodeType.Logor lhs rhs => hasRAB lhs || hasRAB rhs
  | NodeType.Return e => hasRAB e
  | NodeType.Sizeof e => hasRAB e
  | NodeType.Alignof e => hasRAB e
  | NodeType.Call _ args => hasRABList args
  | NodeType.Func _ args body _ => hasRABList args || hasRAB body
  | NodeType.CompStmt stmts => hasRABList stmts
  | NodeType.ExprStmt e => hasRAB e
  | NodeType.StmtExpr e => hasRAB e
  | NodeType.Null => false

def hasRABOpt : Option Node → Bool
  | none => false
  | some n => hasRAB n

def hasRABList : List Node → Bool
  | [] => false
  | n :: rest => hasRAB n || hasRABList rest

end

/- Code generator (src/codegen.rs). -/

inductive IRType where
  | Imm
  | Mov
  | Return
  | Alloca
  | Load
  | Store
  | Add
  | AddImm
  | Sub
  | Mul
  | Div
  | Nop
  | Kill
  deriving DecidableEq

/-- Modelled from the spec: the IR instruction shape of ir.rs, which is not under
src/: an opcode, an optional lhs operand (a virtual register id) and an optional rhs
operand (a virtual register id or an immediate). -/
structure IR where
  op : IRType
  lhs : Option Nat
  rhs : Option Nat
  deriving DecidableEq

/-- Modelled from the spec: REGS, the fixed ordered physical register table, is a
collaborator constant that is not under src/; only its length and the names matter
to the code generator, which indexes it directly. -/
def REGS : List String := ["rdi", "rsi", "r10", "r11", "r12", "r13", "r14", "r15"]

/-- `gen_label`: produce the label for the current counter value and the bumped
counter (the Rust code keeps the counter in a global). -/
def gen_label (n : Nat) : String × Nat := (".L" ++ toString n, n + 1)

/-- The lines emitted for one IR instruction by the loop body of `gen_x86`, given
the return label of the function.  `none` models a panic: the unconditional
`ir.lhs.unwrap()` before the opcode dispatch, a missing rhs operand, or an
out-of-range REGS index. -/
def genIR (ret : String) (ir : IR) : Option (List String) := do
  let lhs ← ir.lhs
  match ir.op with
  | IRType.Imm => do
      let r ← ir.rhs
      let d ← REGS[lhs]?
      pure ["  mov " ++ d ++ ", " ++ toString r]
  | IRType.Mov => do
      let r ← ir.rhs
      let d ← REGS[lhs]?
      let s ← REGS[r]?
      pure ["  mov " ++ d ++ ", " ++ s]
  | IRType.Return => do
      let d ← REGS[lhs]?
      pure ["  mov rax, " ++ d, "  jmp " ++ ret]
  | IRType.Alloca => do
      let d ← REGS[lhs]?
      match ir.rhs with
      | some size => pure ["  sub rsp, " ++ toString size, "  mov " ++ d ++ ", rsp"]
      | none => pure ["  mov " ++ d ++ ", rsp"]
  | IRType.Load => do
      let r ← ir.rhs
      let d ← REGS[lhs]?
      let s ← REGS[r]?
      pure ["  mov " ++ d ++ ", [" ++ s ++ "]"]
  | IRType.Store => do
      let r ← ir.rhs
      let d ← REGS[lhs]?
      let s ← REGS[r]?
      pure ["  mov [" ++ d ++ "], " ++ s]
  | IRType.Add => do
      let r ← ir.rhs
      let d ← REGS[lhs]?
      let s ← REGS[r]?
      pure ["  add " ++ d ++ ", " ++ s]
  | IRType.AddImm => do
      let r ← ir.rhs
      let d ← REGS[lhs]?
      pure ["  add " ++ d ++ ", " ++ toString r]
  | IRType.Sub => do
      let r ← ir.rhs
      let d ← REGS[lhs]?
      let s ← REGS[r]?
      pure ["  sub " ++ d ++ ", " ++ s]
  | IRType.Mul => do
      let r ← ir.rhs
      let d ← REGS[lhs]?
      let s ← REGS[r]?
      pure ["  mov rax, " ++ s, "  mul " ++ d, "  mov " ++ d ++ ", rax"]
  | IRType.Div => do
      let r ← ir.rhs
      let d ← REGS[lhs]?
      let s ← REGS[r]?
      pure ["  mov rax, " ++ d, "  cqo", "  div " ++ s, "  mov " ++ d ++ ", rax"]
  | IRType.Nop => pure []
  | IRType.Kill => pure []

/-- The lines emitted by the instruction loop of `gen_x86` for a whole IR sequence. -/
def gen_body (ret : String) : List IR → Option (List String)
  | [] => some []
  | ir :: rest => do
      let ls ← genIR ret ir
      let rest' ← gen_body ret rest
      pure (ls ++ rest')

/-- `gen_x86` from codegen.rs, with the global label counter passed explicitly as
`n`: prologue, the lines for each instruction, then the labelled epilogue. -/
def gen_x86 (irv : List IR) (n : Nat) : Option (List String) := do
  let ret := (gen_label n).1
  let body ← gen_body ret irv
  pure (["  push rbp", "  mov rbp, rsp"] ++ body ++
    [ret ++ ":", "  mov rsp, rbp", "  mov rsp, rbp", "  pop rbp", "  ret"])

/-- The operands of an instruction that `gen_x86` resolves through the REGS table:
the lhs of every opcode except `Nop` and `Kill` (whose emission branches never read
a register), and the rhs of the opcodes whose rhs is a register rather than an
immediate. -/
def regOperands (ir : IR) : List Nat :=
  match ir.op with
  | IRType.Nop => []
  | IRType.Kill => []
  | IRType.Imm => ir.lhs.toList
  | IRType.AddImm => ir.lhs.toList
  | IRType.Alloca => ir.lhs.toList
  | IRType.Return => ir.lhs.toList
  | IRType.Mov => ir.lhs.toList ++ ir.rhs.toList
  | IRType.Load => ir.lhs.toList ++ ir.rhs.toList
  | IRType.Store => ir.lhs.toList ++ ir.rhs.toList
  | IRType.Add => ir.lhs.toList ++ ir.rhs.toList
  | IRType.Sub => ir.lhs.toList ++ ir.rhs.toList
  | IRType.Mul => ir.lhs.toList ++ ir.rhs.toList
  | IRType.Div => ir.lhs.toList ++ ir.rhs.toList

/-- Whether some table-resolved operand of `ir` is at or beyond the REGS length. -/
def usesOutOfRangeReg (ir : IR) : Bool :=
  (regOperands ir).any (fun r => decide (REGS.length ≤ r))

/- Concrete inputs and small abbreviations used by the claim statements. -/

/-- Shorthand for building a token. -/
def tk (ty : TokenType) (input : String) : Token := Token.mk ty input

/-- An identifier token whose raw text is its name. -/
def identTk (s : String) : Token := tk (TokenType.Ident s) s

/-- A number token. -/
def numTk (v : Int) : Token := tk (TokenType.Num v) (toString v)

/-- A semicolon token. -/
def semiTk : Token := tk TokenType.Semicolon (";")

/-- The number-literal node as built by `primary` (explicit `Int` type). -/
def numNode (v : Int) : Node := Node.mk (NodeType.Num v) (Ty.mk Ctype.Int)

/-- The identifier node as built by `primary` (default type). -/
def identNode (s : String) : Node := Node.new (NodeType.Ident s)

/-- The token sequence `a = b = c`. -/
def c2Tokens : List Token :=
  [identTk ("a"), tk TokenType.Equal ("="), identTk ("b"),
   tk TokenType.Equal ("="), identTk ("c")]

/-- The token sequence `a == b == c ;`. -/
def c4Tokens : List Token :=
  [identTk ("a"), tk TokenType.EQ ("=="), identTk ("b"),
   tk TokenType.EQ ("=="), identTk ("c"), semiTk]

/-- The token sequence `a > b ;`. -/
def c5GtTokens : List Token :=
  [identTk ("a"), tk TokenType.RightAngleBracket (">"), identTk ("b"), semiTk]

/-- The token sequence `b < a ;`. -/
def c5LtTokens : List Token :=
  [identTk ("b"), tk TokenType.LeftAngleBracket ("<"), identTk ("a"), semiTk]

/-- The token sequence `int main ( ) { a > b ; }`. -/
def c5FnTokens : List Token :=
  [tk TokenType.Int ("int"), identTk ("main"), tk TokenType.LeftParen ("("),
   tk TokenType.RightParen (")"), tk TokenType.LeftBrace ("\x7b"),
   identTk ("a"), tk TokenType.RightAngleBracket (">"), identTk ("b"), semiTk,
   tk TokenType.RightBrace ("\x7d")]

/-- The token sequence `sizeof - x ;`. -/
def c7MinusTokens : List Token :=
  [tk TokenType.Sizeof ("sizeof"), tk TokenType.Minus ("-"), identTk ("x"), semiTk]

/-- The token sequence `sizeof x + 1 ;`. -/
def c7AddTokens : List Token :=
  [tk TokenType.Sizeof ("sizeof"), identTk ("x"), tk TokenType.Plus ("+"),
   numTk 1, semiTk]

/-- The token sequence `sizeof ( x + 1 ) ;`. -/
def c7ParenTokens : List Token :=
  [tk TokenType.Sizeof ("sizeof"), tk TokenType.LeftParen ("("), identTk ("x"),
   tk TokenType.Plus ("+"), numTk 1, tk TokenType.RightParen (")"), semiTk]

/-- The token sequence `int x` with no trailing semicolon. -/
def c8Tokens : List Token := [tk TokenType.Int ("int"), identTk ("x")]

/-- The token sequence `1 + 2 * 3 ;`. -/
def c9PlusMulTokens : List Token :=
  [numTk 1, tk TokenType.Plus ("+"), numTk 2, tk TokenType.Mul ("*"), numTk 3, semiTk]

/-- The token sequence `2 * 3 + 1 ;`. -/
def c9MulPlusTokens : List Token :=
  [numTk 2, tk TokenType.Mul ("*"), numTk 3, tk TokenType.Plus ("+"), numTk 1, semiTk]

/-- The token sequence `1 - 2 - 3 ;`. -/
def c9MinusTokens : List Token :=
  [numTk 1, tk TokenType.Minus ("-"), numTk 2, tk TokenType.Minus ("-"), numTk 3, semiTk]

/-- The IR sequence of the spec's example: load 5 into r0, return r0. -/
def c1IRv : List IR := [IR.mk IRType.Imm (some 0) (some 5), IR.mk IRType.Return (some 0) none]

/-- A line of emitted assembly that is none of `push rbp`, `pop rbp`, `ret`; the
lines emitted for IR instructions are all safe, which makes the prologue and
epilogue unique in the output. -/
def safeLine (s : String) : Prop :=
  s ≠ ("  push rbp") ∧ s ≠ ("  pop rbp") ∧ s ≠ ("  ret")

/-- The induction package for the parser invariant of relational canonicalization:
at fuel `f`, every node an expression- or statement-level parser function returns
is free of `RightAngleBracket` binary operators (loop functions preserve the
invariant of their accumulator argument). -/
structure NoRABFacts (f : Nat) : Prop where
  hPrimary : ∀ ts pos r, primary f ts pos = Except.ok r → hasRAB r.1 = false
  hCallArgs : ∀ ts pos args r, callArgs f ts pos args = Except.ok r →
    hasRABList args = false → hasRABList r.1 = false
  hPfx : ∀ ts pos r, postfixExpr f ts pos = Except.ok r → hasRAB r.1 = false
  hPfxLoop : ∀ ts pos lhs r, postfixLoop f ts pos lhs = Except.ok r →
    hasRAB lhs = false → hasRAB r.1 = false
  hUnary : ∀ ts pos r, unary f ts pos = Except.ok r → hasRAB r.1 = false
  hMul : ∀ ts pos r, mul f ts pos = Except.ok r → hasRAB r.1 = false
  hMulLoop : ∀ ts pos lhs r, mulLoop f ts pos lhs = Except.ok r →
    hasRAB lhs = false → hasRAB r.1 = false
  hAdd : ∀ ts pos r, add f ts pos = Except.ok r → hasRAB r.1 = false
  hAddLoop : ∀ ts pos lhs r, addLoop f ts pos lhs = Except.ok r →
    hasRAB lhs = false → hasRAB r.1 = false
  hRel : ∀ ts pos r, rel f ts pos = Except.ok r → hasRAB r.1 = false
  hRelLoop : ∀ ts pos lhs r, relLoop f ts pos lhs = Except.ok r →
    hasRAB lhs = false → hasRAB r.1 = false
  hEquality : ∀ ts pos r, equality f ts pos = Except.ok r → hasRAB r.1 = false
  hEqualityTail : ∀ ts pos lhs r, equalityTail f ts pos lhs = Except.ok r →
    hasRAB lhs = false → hasRAB r.1 = false
  hLogand : ∀ ts pos r, logand f ts pos = Except.ok r → hasRAB r.1 = false
  hLogandLoop : ∀ ts pos lhs r, logandLoop f ts pos lhs = Except.ok r →
    hasRAB lhs = false → hasRAB r.1 = false
  hLogor : ∀ ts pos r, logor f ts pos = Except.ok r → hasRAB r.1 = false
  hLogorLoop : ∀ ts pos lhs r, logorLoop f ts pos lhs = Except.ok r →
    hasRAB lhs = false → hasRAB r.1 = false
  hAssign : ∀ ts pos r, assign f ts pos = Except.ok r → hasRAB r.1 = false
  hDecl : ∀ ts pos r, decl f ts pos = Except.ok r → hasRAB r.1 = false
  hExprStmt : ∀ ts pos r, expr_stmt f ts pos = Except.ok r → hasRAB r.1 = false
  hStmt : ∀ ts pos r, stmt f ts pos = Except.ok r → hasRAB r.1 = false
  hStmtList : ∀ ts pos acc r, stmtList f ts pos acc = Except.ok r →
    hasRABList acc = false → hasRABList r.1 = false
  hCompound : ∀ ts pos r, compound_stmt f ts pos = Except.ok r → hasRAB r.1 = false

/- Basic lemmas about the Except monad as used by the parser embedding. -/

theorem bindOk {α β : Type} (a : α) (g : α → Except ParseErr β) :
    (Except.ok a >>= g) = g a := rfl

theorem bindErr {α β : Type} (e : ParseErr) (g : α → Except ParseErr β) :
    ((Except.error e : Except ParseErr α) >>= g) = Except.error e := rfl

theorem pureEq {α : Type} (a : α) : (pure a : Except ParseErr α) = Except.ok a := rfl

theorem consume_true {ts : List Token} {p : Nat} {t : Token} {ty : TokenType}
    (h : tokGet ts p = Except.ok t) (hty : t.ty = ty) :
    consume ty ts p = Except.ok (true, p + 1) := by
  simp [consume, h, hty, bindOk, pureEq]

theorem consume_false {ts : List Token} {p : Nat} {t : Token} {ty : TokenType}
    (h : tokGet ts p = Except.ok t) (hty : t.ty ≠ ty) :
    consume ty ts p = Except.ok (false, p) := by
  simp [consume, h, hty, bindOk, pureEq]

/- String-shape lemmas: every line emitted for an IR instruction differs from the
prologue and epilogue lines, which is what makes the pop and ret counts exact. -/

theorem ne_of_take (k : Nat) (s t : String) (h : s.data.take k ≠ t.data.take k) :
    s ≠ t :=
  fun he => h (by rw [he])

theorem take_of_append (k : Nat) (p x : String) (h : k ≤ p.data.length) :
    k ≤ (p ++ x).data.length ∧ (p ++ x).data.take k = p.data.take k := by
  rw [String.data_append, List.length_append]
  exact ⟨Nat.le_trans h (Nat.le_add_right _ _), List.take_append_of_le_length h⟩

theorem safeLine_take3 (s : String) (c : Char) (hc : s.data.take 3 = [' ', ' ', c])
    (h1 : c ≠ 'p') (h2 : c ≠ 'r') : safeLine s := by
  refine ⟨ne_of_take 3 _ _ ?_, ne_of_take 3 _ _ ?_, ne_of_take 3 _ _ ?_⟩
  · rw [hc, show ("  push rbp").data.take 3 = [' ', ' ', 'p'] from rfl]
    simp [h1]
  · rw [hc, show ("  pop rbp").data.take 3 = [' ', ' ', 'p'] from rfl]
    simp [h1]
  · rw [hc, show ("  ret").data.take 3 = [' ', ' ', 'r'] from rfl]
    simp [h2]

theorem safe_app1 (p x : String) (c : Char) (hp : 3 ≤ p.data.length)
    (hc : p.data.take 3 = [' ', ' ', c]) (h1 : c ≠ 'p') (h2 : c ≠ 'r') :
    safeLine (p ++ x) := by
  have t1 := take_of_append 3 p x hp
  exact safeLine_take3 _ c (t1.2.trans hc) h1 h2

theorem safe_app2 (p x y : String) (c : Char) (hp : 3 ≤ p.data.length)
    (hc : p.data.take 3 = [' ', ' ', c]) (h1 : c ≠ 'p') (h2 : c ≠ 'r') :
    safeLine (p ++ x ++ y) := by
  have t1 := take_of_append 3 p x hp
  have t2 := take_of_append 3 (p ++ x) y t1.1
  exact safeLine_take3 _ c (t2.2.trans (t1.2.trans hc)) h1 h2

theorem safe_app3 (p x y z : String) (c : Char) (hp : 3 ≤ p.data.length)
    (hc : p.data.take 3 = [' ', ' ', c]) (h1 : c ≠ 'p') (h2 : c ≠ 'r') :
    safeLine (p ++ x ++ y ++ z) := by
  have t1 := take_of_append 3 p x hp
  have t2 := take_of_append 3 (p ++ x) y t1.1
  have t3 := take_of_append 3 (p ++ x ++ y) z t2.1
  exact safeLine_take3 _ c (t3.2.trans (t2.2.trans (t1.2.trans hc))) h1 h2

theorem safe_app4 (p x y z w : String) (c : Char) (hp : 3 ≤ p.data.length)
    (hc : p.data.take 3 = [' ', ' ', c]) (h1 : c ≠ 'p') (h2 : c ≠ 'r') :
    safeLine (p ++ x ++ y ++ z ++ w) := by
  have t1 := take_of_append 3 p x hp
  have t2 := take_of_append 3 (p ++ x) y t1.1
  have t3 := take_of_append 3 (p ++ x ++ y) z t2.1
  have t4 := take_of_append 3 (p ++ x ++ y ++ z) w t3.1
  exact safeLine_take3 _ c (t4.2.trans (t3.2.trans (t2.2.trans (t1.2.trans hc)))) h1 h2

theorem safeLine_label (x y : String) : safeLine (".L" ++ x ++ y) := by
  have t1 := take_of_append 2 (".L") x (by decide)
  have t2 := take_of_append 2 (".L" ++ x) y t1.1
  refine ⟨ne_of_take 2 _ _ ?_, ne_of_take 2 _ _ ?_, ne_of_take 2 _ _ ?_⟩ <;>
    rw [t2.2, t1.2, show (".L").data.take 2 = ['.', 'L'] from rfl] <;> decide

/- hasRAB computation helpers. -/

theorem hasRAB_mk (op : NodeType) (ty : Ty) : hasRAB (Node.mk op ty) = hasRABOp op := rfl

theorem hasRAB_binop (op : TokenType) (l r : Node)
    (h : op ≠ TokenType.RightAngleBracket) :
    hasRAB (Node.new_binop op l r) = (hasRAB l || hasRAB r) := by
  cases op <;> first
    | exact absurd rfl h
    | simp [Node.new_binop, Node.new, hasRAB, hasRABOp]

theorem hasRABList_append (a b : List Node) :
    hasRABList (a ++ b) = (hasRABList a || hasRABList b) := by
  induction a with
  | nil => simp [hasRABList]
  | cons x xs ihx => simp [hasRABList, ihx, Bool.or_assoc]

/- Code generator lemmas. -/

theorem genIR_safe (ret : String) (ir : IR) (ls : List String)
    (h : genIR ret ir = some ls) : ∀ l ∈ ls, safeLine l := by
  rcases ir with ⟨op, lhs, rhs⟩
  cases lhs with
  | none => simp [genIR] at h
  | some l =>
    cases op
    case Imm =>
      cases rhs with
      | none => simp [genIR] at h
      | some r =>
        cases hd : REGS[l]? with
        | none => simp [genIR, hd] at h
        | some d =>
          simp [genIR, hd] at h
          subst h
          intro x hx
          simp only [List.mem_singleton] at hx
          subst hx
          exact safe_app3 ("  mov ") d (", ") (toString r) 'm' (by decide) rfl
            (by decide) (by decide)
    case Mov =>
      cases rhs with
      | none => simp [genIR] at h
      | some r =>
        cases hd : REGS[l]? with
        | none => simp [genIR, hd] at h
        | some d =>
          cases hs : REGS[r]? with
          | none => simp [genIR, hd, hs] at h
          | some s =>
            simp [genIR, hd, hs] at h
            subst h
            intro x hx
            simp only [List.mem_singleton] at hx
            subst hx
            exact safe_app3 ("  mov ") d (", ") s 'm' (by decide) rfl (by decide) (by decide)
    case Return =>
      cases hd : REGS[l]? with
      | none => simp [genIR, hd] at h
      | some d =>
        simp [genIR, hd] at h
        subst h
        intro x hx
        simp only [List.mem_cons, List.not_mem_nil, or_false] at hx
        rcases hx with hx | hx <;> subst hx
        · exact safe_app1 ("  mov rax, ") d 'm' (by decide) rfl (by decide) (by decide)
        · exact safe_app1 ("  jmp ") ret 'j' (by decide) rfl (by decide) (by decide)
    case Alloca =>
      cases hd : REGS[l]? with
      | none => simp [genIR, hd] at h
      | some d =>
        cases rhs with
        | none =>
          simp [genIR, hd] at h
          subst h
          intro x hx
          simp only [List.mem_singleton] at hx
          subst hx
          exact safe_app2 ("  mov ") d (", rsp") 'm' (by decide) rfl (by decide) (by decide)
        | some size =>
          simp [genIR, hd] at h
          subst h
          intro x hx
          simp only [List.mem_cons, List.not_mem_nil, or_false] at hx
          rcases hx with hx | hx <;> subst hx
          · exact safe_app1 ("  sub rsp, ") (toString size) 's' (by decide) rfl
              (by decide) (by decide)
          · exact safe_app2 ("  mov ") d (", rsp") 'm' (by decide) rfl (by decide) (by decide)
    case Load =>
      cases rhs with
      | none => simp [genIR] at h
      | some r =>
        cases hd : REGS[l]? with
        | none => simp [genIR, hd] at h
        | some d =>
          cases hs : REGS[r]? with
          | none => simp [genIR, hd, hs] at h
          | some s =>
            simp [genIR, hd, hs] at h
            subst h
            intro x hx
            simp only [List.mem_singleton] at hx
            subst hx
            exact safe_app4 ("  mov ") d (", [") s ("]") 'm' (by decide) rfl
              (by decide) (by decide)
    case Store =>
      cases rhs with
      | none => simp [genIR] at h
      | some r =>
        cases hd : REGS[l]? with
        | none => simp [genIR, hd] at h
        | some d =>
          cases hs : REGS[r]? with
          | none => simp [genIR, hd, hs] at h
          | some s =>
            simp [genIR, hd, hs] at h
            subst h
            intro x hx
            simp only [List.mem_singleton] at hx
            subst hx
            exact safe_app3 ("  mov [") d ("], ") s 'm' (by decide) rfl
              (by decide) (by decide)
    case Add =>
      cases rhs with
      | none => simp [genIR] at h
      | some r =>
        cases hd : REGS[l]? with
        | none => simp [genIR, hd] at h
        | some d =>
          cases hs : REGS[r]? with
          | none => simp [genIR, hd, hs] at h
          | some s =>
            simp [genIR, hd, hs] at h
            subst h
            intro x hx
            simp only [List.mem_singleton] at hx
            subst hx
            exact safe_app3 ("  add ") d (", ") s 'a' (by decide) rfl (by decide) (by decide)
    case AddImm =>
      cases rhs with
      | none => simp [genIR] at h
      | some r =>
        cases hd : REGS[l]? with
        | none => simp [genIR, hd] at h
        | some d =>
          simp [genIR, hd] at h
          subst h
          intro x hx
          simp only [List.mem_singleton] at hx
          subst hx
          exact safe_app3 ("  add ") d (", ") (toString r) 'a' (by decide) rfl
            (by decide) (by decide)
    case Sub =>
      cases rhs with
      | none => simp [genIR] at h
      | some r =>
        cases hd : REGS[l]? with
        | none => simp [genIR, hd] at h
        | some d =>
          cases hs : REGS[r]? with
          | none => simp [genIR, hd, hs] at h
          | some s =>
            simp [genIR, hd, hs] at h
            subst h
            intro x hx
            simp only [List.mem_singleton] at hx
            subst hx
            exact safe_app3 ("  sub ") d (", ") s 's' (by decide) rfl (by decide) (by decide)
    case Mul =>
      cases rhs with
      | none => simp [genIR] at h
      | some r =>
        cases hd : REGS[l]? with
        | none => simp [genIR, hd] at h
        | some d =>
          cases hs : REGS[r]? with
          | none => simp [genIR, hd, hs] at h
          | some s =>
            simp [genIR, hd, hs] at h
            subst h
            intro x hx
            simp only [List.mem_cons, List.not_mem_nil, or_false] at hx
            rcases hx with hx | hx | hx <;> subst hx
            · exact safe_app1 ("  mov rax, ") s 'm' (by decide) rfl (by decide) (by decide)
            · exact safe_app1 ("  mul ") d 'm' (by decide) rfl (by decide) (by decide)
            · exact safe_app2 ("  mov ") d (", rax") 'm' (by decide) rfl (by decide) (by decide)
    case Div =>
      cases rhs with
      | none => simp [genIR] at h
      | some r =>
        cases hd : REGS[l]? with
        | none => simp [genIR, hd] at h
        | some d =>
          cases hs : REGS[r]? with
          | none => simp [genIR, hd, hs] at h
          | some s =>
            simp [genIR, hd, hs] at h
            subst h
            intro x hx
            simp only [List.mem_cons, List.not_mem_nil, or_false] at hx
            rcases hx with hx | hx | hx | hx <;> subst hx
            · exact safe_app1 ("  mov rax, ") d 'm' (by decide) rfl (by decide) (by decide)
            · exact ⟨by decide, by decide, by decide⟩
            · exact safe_app1 ("  div ") s 'd' (by decide) rfl (by decide) (by decide)
            · exact safe_app2 ("  mov ") d (", rax") 'm' (by decide) rfl (by decide) (by decide)
    case Nop =>
      simp [genIR] at h
      subst h
      intro x hx
      simp at hx
    case Kill =>
      simp [genIR] at h
      subst h
      intro x hx
      simp at hx

theorem obindSome {α β : Type} (a : α) (g : α → Option β) : (some a >>= g) = g a := rfl

theorem obindNone {α β : Type} (g : α → Option β) : ((none : Option α) >>= g) = none := rfl

theorem opureEq {α : Type} (a : α) : (pure a : Option α) = some a := rfl

theorem gen_body_safe (ret : String) : ∀ irv body, gen_body ret irv = some body →
    ∀ l ∈ body, safeLine l := by
  intro irv
  induction irv with
  | nil =>
    intro body h
    simp [gen_body] at h
    subst h
    intro l hl
    simp at hl
  | cons ir rest ih =>
    intro body h
    simp only [gen_body] at h
    cases hg : genIR ret ir with
    | none => simp [hg, obindNone] at h
    | some ls =>
      cases hb : gen_body ret rest with
      | none => simp [hg, hb, obindSome, obindNone] at h
      | some rest' =>
        simp [hg, hb, obindSome, opureEq] at h
        subst h
        intro l hl
        rcases List.mem_append.mp hl with hl | hl
        · exact genIR_safe ret ir ls hg l hl
        · exact ih rest' hb l hl

theorem gen_body_infix (ret : String) : ∀ irv body, gen_body ret irv = some body →
    ∀ ir ∈ irv, ∃ ls, genIR ret ir = some ls ∧ ls <:+: body := by
  intro irv
  induction irv with
  | nil =>
    intro body h ir hir
    simp at hir
  | cons ir0 rest ih =>
    intro body h ir hir
    simp only [gen_body] at h
    cases hg : genIR ret ir0 with
    | none => simp [hg, obindNone] at h
    | some ls =>
      cases hb : gen_body ret rest with
      | none => simp [hg, hb, obindSome, obindNone] at h
      | some rest' =>
        simp [hg, hb, obindSome, opureEq] at h
        subst h
        rcases List.mem_cons.mp hir with he | he
        · subst he
          exact ⟨ls, hg, ⟨[], rest', by simp⟩⟩
        · obtain ⟨ls', hg', s, t, hst⟩ := ih rest' hb ir he
          exact ⟨ls', hg', ls ++ s, t, by rw [← hst]; simp [List.append_assoc]⟩

theorem gen_body_none (ret : String) : ∀ irv ir, ir ∈ irv → genIR ret ir = none →
    gen_body ret irv = none := by
  intro irv
  induction irv with
  | nil =>
    intro ir h
    simp at h
  | cons ir0 rest ih =>
    intro ir hmem hnone
    rcases List.mem_cons.mp hmem with he | he
    · subst he
      simp only [gen_body]
      rw [hnone]
      rfl
    · simp only [gen_body]
      cases hg : genIR ret ir0 with
      | none => rfl
      | some ls => simp [obindSome, ih ir he hnone, obindNone]

theorem genIR_none_noLhs (ret : String) (ir : IR) (h : ir.lhs = none) :
    genIR ret ir = none := by
  simp only [genIR, h]
  rfl

theorem genIR_none_bad (ret : String) (ir : IR) (h : usesOutOfRangeReg ir = true) :
    genIR ret ir = none := by
  rcases ir with ⟨op, lhs, rhs⟩
  cases lhs with
  | none => exact genIR_none_noLhs ret _ rfl
  | some l =>
    simp only [usesOutOfRangeReg, regOperands] at h
    cases op
    case Nop => simp at h
    case Kill => simp at h
    case Imm =>
      cases rhs with
      | none => simp [genIR, obindSome, obindNone]
      | some r =>
        simp [Option.toList] at h
        simp [genIR, obindSome, List.getElem?_eq_none h, obindNone]
    case AddImm =>
      cases rhs with
      | none => simp [genIR, obindSome, obindNone]
      | some r =>
        simp [Option.toList] at h
        simp [genIR, obindSome, List.getElem?_eq_none h, obindNone]
    case Alloca =>
      simp [Option.toList] at h
      simp [genIR, obindSome, List.getElem?_eq_none h, obindNone]
    case Return =>
      simp [Option.toList] at h
      simp [genIR, obindSome, List.getElem?_eq_none h, obindNone]
    case Mov =>
      cases rhs with
      | none => simp [genIR, obindSome, obindNone]
      | some r =>
        simp [Option.toList] at h
        rcases h with h | h
        · simp [genIR, obindSome, List.getElem?_eq_none h, obindNone]
        · cases hd : REGS[l]? with
          | none => simp [genIR, obindSome, hd, obindNone]
          | some d => simp [genIR, obindSome, hd, List.getElem?_eq_none h, obindNone]
    case Load =>
      cases rhs with
      | none => simp [genIR, obindSome, obindNone]
      | some r =>
        simp [Option.toList] at h
        rcases h with h | h
        · simp [genIR, obindSome, List.getElem?_eq_none h, obindNone]
        · cases hd : REGS[l]? with
          | none => simp [genIR, obindSome, hd, obindNone]
          | some d => simp [genIR, obindSome, hd, List.getElem?_eq_none h, obindNone]
    case Store =>
      cases rhs with
      | none => simp [genIR, obindSome, obindNone]
      | some r =>
        simp [Option.toList] at h
        rcases h with h | h
        · simp [genIR, obindSome, List.getElem?_eq_none h, obindNone]
        · cases hd : REGS[l]? with
          | none => simp [genIR, obindSome, hd, obindNone]
          | some d => simp [genIR, obindSome, hd, List.getElem?_eq_none h, obindNone]
    case Add =>
      cases rhs with
      | none => simp [genIR, obindSome, obindNone]
      | some r =>
        simp [Option.toList] at h
        rcases h with h | h
        · simp [genIR, obindSome, List.getElem?_eq_none h, obindNone]
        · cases hd : REGS[l]? with
          | none => simp [genIR, obindSome, hd, obindNone]
          | some d => simp [genIR, obindSome, hd, List.getElem?_eq_none h, obindNone]
    case Sub =>
      cases rhs with
      | none => simp [genIR, obindSome, obindNone]
      | some r =>
        simp [Option.toList] at h
        rcases h with h | h
        · simp [genIR, obindSome, List.getElem?_eq_none h, obindNone]
        · cases hd : REGS[l]? with
          | none => simp [genIR, obindSome, hd, obindNone]
          | some d => simp [genIR, obindSome, hd, List.getElem?_eq_none h, obindNone]
    case Mul =>
      cases rhs with
      | none => simp [genIR, obindSome, obindNone]
      | some r =>
        simp [Option.toList] at h
        rcases h with h | h
        · simp [genIR, obindSome, List.getElem?_eq_none h, obindNone]
        · cases hd : REGS[l]? with
          | none => simp [genIR, obindSome, hd, obindNone]
          | some d => simp [genIR, obindSome, hd, List.getElem?_eq_none h, obindNone]
    case Div =>
      cases rhs with
      | none => simp [genIR, obindSome, obindNone]
      | some r =>
        simp [Option.toList] at h
        rcases h with h | h
        · simp [genIR, obindSome, List.getElem?_eq_none h, obindNone]
        · cases hd : REGS[l]? with
          | none => simp [genIR, obindSome, hd, obindNone]
          | some d => simp [genIR, obindSome, hd, List.getElem?_eq_none h, obindNone]

theorem gen_x86_eq (irv : List IR) (n : Nat) (out : List String)
    (h : gen_x86 irv n = some out) :
    ∃ body, gen_body (".L" ++ toString n) irv = some body ∧
      out = ["  push rbp", "  mov rbp, rsp"] ++ body ++
        [".L" ++ toString n ++ ":", "  mov rsp, rbp", "  mov rsp, rbp",
         "  pop rbp", "  ret"] := by
  simp only [gen_x86, gen_label] at h
  cases hb : gen_body (".L" ++ toString n) irv with
  | none => simp [hb, obindNone] at h
  | some body =>
    simp [hb, obindSome, opureEq] at h
    exact ⟨body, rfl, h.symm⟩

theorem gen_x86_none (irv : List IR) (n : Nat)
    (h : gen_body (".L" ++ toString n) irv = none) : gen_x86 irv n = none := by
  simp [gen_x86, gen_label, h, obindNone]

/-- C1: for every IR sequence that the generator accepts, the output starts with the
single prologue `push rbp`; `mov rbp, rsp`, ends with the single epilogue
(return-label line, `mov rsp, rbp` twice, `pop rbp`, `ret`), contains exactly one
`push rbp`, one `pop rbp` and one `ret` line, and every `Return` instruction
contributes a contiguous pair of lines moving its source register into `rax` and
jumping to the single return label. -/
theorem c1_single_prologue_epilogue (irv : List IR) (n : Nat) (out : List String)
    (h : gen_x86 irv n = some out) :
    List.take 2 out = ["  push rbp", "  mov rbp, rsp"] ∧
    List.drop (out.length - 5) out =
      [".L" ++ toString n ++ ":", "  mov rsp, rbp", "  mov rsp, rbp",
       "  pop rbp", "  ret"] ∧
    List.count ("  push rbp") out = 1 ∧
    List.count ("  pop rbp") out = 1 ∧
    List.count ("  ret") out = 1 ∧
    (∀ ir ∈ irv, ir.op = IRType.Return → ∃ l d, ir.lhs = some l ∧ REGS[l]? = some d ∧
      ["  mov rax, " ++ d, "  jmp " ++ (".L" ++ toString n)] <:+: out) := by
  obtain ⟨body, hb, hout⟩ := gen_x86_eq irv n out h
  subst hout
  have hsafe := gen_body_safe _ irv body hb
  have hlbl := safeLine_label (toString n) (":")
  refine ⟨?_, ?_, ?_, ?_, ?_, ?_⟩
  · rw [List.append_assoc, List.take_append_of_le_length (by simp)]
    rfl
  · have h5 : (["  push rbp", "  mov rbp, rsp"] ++ body ++
        [".L" ++ toString n ++ ":", "  mov rsp, rbp", "  mov rsp, rbp",
         "  pop rbp", "  ret"]).length - 5 =
        (["  push rbp", "  mov rbp, rsp"] ++ body).length := by
      simp [List.length_append]
    rw [h5, List.drop_left]
  · have h0 : List.count ("  push rbp") body = 0 :=
      List.count_eq_zero.mpr (fun hmem => (hsafe _ hmem).1 rfl)
    have hl : ((".L" ++ toString n ++ ":") == ("  push rbp")) = false :=
      beq_eq_false_iff_ne.mpr hlbl.1
    simp only [List.count_append, List.count_cons, List.count_nil, h0, hl]
    decide
  · have h0 : List.count ("  pop rbp") body = 0 :=
      List.count_eq_zero.mpr (fun hmem => (hsafe _ hmem).2.1 rfl)
    have hl : ((".L" ++ toString n ++ ":") == ("  pop rbp")) = false :=
      beq_eq_false_iff_ne.mpr hlbl.2.1
    simp only [List.count_append, List.count_cons, List.count_nil, h0, hl]
    decide
  · have h0 : List.count ("  ret") body = 0 :=
      List.count_eq_zero.mpr (fun hmem => (hsafe _ hmem).2.2 rfl)
    have hl : ((".L" ++ toString n ++ ":") == ("  ret")) = false :=
      beq_eq_false_iff_ne.mpr hlbl.2.2
    simp only [List.count_append, List.count_cons, List.count_nil, h0, hl]
    decide
  · intro ir hmem hop
    obtain ⟨ls, hg, hinf⟩ := gen_body_infix _ irv body hb ir hmem
    rcases ir with ⟨op, lhs, rhs⟩
    simp only at hop
    subst hop
    cases lhs with
    | none => simp [genIR] at hg
    | some l =>
      cases hd : REGS[l]? with
      | none => simp [genIR, hd, obindSome, obindNone] at hg
      | some d =>
        simp [genIR, hd, obindSome] at hg
        subst hg
        refine ⟨l, d, rfl, hd, ?_⟩
        obtain ⟨s, t, hst⟩ := hinf
        exact ⟨["  push rbp", "  mov rbp, rsp"] ++ s,
          t ++ [".L" ++ toString n ++ ":", "  mov rsp, rbp", "  mov rsp, rbp",
            "  pop rbp", "  ret"], by rw [← hst]; simp [List.append_assoc]⟩

/-- Witness for C1 at the spec's own example `[Imm(r0,5), Return(r0)]` with label
counter 0: the emitted text and its unique pop and ret lines. -/
theorem c1_witness :
    List.take 2 ["  push rbp", "  mov rbp, rsp", "  mov rdi, 5", "  mov rax, rdi",
        "  jmp .L0", ".L0:", "  mov rsp, rbp", "  mov rsp, rbp", "  pop rbp", "  ret"] =
      ["  push rbp", "  mov rbp, rsp"] ∧
    List.count ("  pop rbp") ["  push rbp", "  mov rbp, rsp", "  mov rdi, 5",
        "  mov rax, rdi", "  jmp .L0", ".L0:", "  mov rsp, rbp", "  mov rsp, rbp",
        "  pop rbp", "  ret"] = 1 ∧
    List.count ("  ret") ["  push rbp", "  mov rbp, rsp", "  mov rdi, 5",
        "  mov rax, rdi", "  jmp .L0", ".L0:", "  mov rsp, rbp", "  mov rsp, rbp",
        "  pop rbp", "  ret"] = 1 := by
  have h := c1_single_prologue_epilogue c1IRv 0
    ["  push rbp", "  mov rbp, rsp", "  mov rdi, 5", "  mov rax, rdi", "  jmp .L0",
     ".L0:", "  mov rsp, rbp", "  mov rsp, rbp", "  pop rbp", "  ret"] rfl
  exact ⟨h.1, h.2.2.2.1, h.2.2.2.2.1⟩

/-- C3: every `Div(dst, src)` instruction in an accepted IR sequence contributes the
contiguous block `mov rax, dst`; `cqo`; `div src`; `mov dst, rax`: the dividend is
moved into the accumulator, sign-extended by `cqo`, divided by the source register,
and the quotient is moved back into the destination register. -/
theorem c3_div_via_accumulator (irv : List IR) (n : Nat) (out : List String) (ir : IR)
    (h : gen_x86 irv n = some out) (hmem : ir ∈ irv) (hop : ir.op = IRType.Div) :
    ∃ l r d s, ir.lhs = some l ∧ ir.rhs = some r ∧ REGS[l]? = some d ∧ REGS[r]? = some s ∧
      ["  mov rax, " ++ d, "  cqo", "  div " ++ s, "  mov " ++ d ++ ", rax"] <:+: out := by
  obtain ⟨body, hb, hout⟩ := gen_x86_eq irv n out h
  subst hout
  obtain ⟨ls, hg, hinf⟩ := gen_body_infix _ irv body hb ir hmem
  rcases ir with ⟨op, lhs, rhs⟩
  simp only at hop
  subst hop
  cases lhs with
  | none => simp [genIR] at hg
  | some l =>
    cases rhs with
    | none => simp [genIR, obindSome, obindNone] at hg
    | some r =>
      cases hd : REGS[l]? with
      | none => simp [genIR, hd, obindSome, obindNone] at hg
      | some d =>
        cases hs : REGS[r]? with
        | none => simp [genIR, hd, hs, obindSome, obindNone] at hg
        | some s =>
          simp [genIR, hd, hs, obindSome] at hg
          subst hg
          refine ⟨l, r, d, s, rfl, rfl, hd, hs, ?_⟩
          obtain ⟨u, t, hst⟩ := hinf
          exact ⟨["  push rbp", "  mov rbp, rsp"] ++ u,
            t ++ [".L" ++ toString n ++ ":", "  mov rsp, rbp", "  mov rsp, rbp",
              "  pop rbp", "  ret"], by rw [← hst]; simp [List.append_assoc]⟩

/-- Witness for C3 at `[Div(r0, r1)]` with label counter 0. -/
theorem c3_witness :
    ["  mov rax, rdi", "  cqo", "  div rsi", "  mov rdi, rax"] <:+:
      ["  push rbp", "  mov rbp, rsp", "  mov rax, rdi", "  cqo", "  div rsi",
       "  mov rdi, rax", ".L0:", "  mov rsp, rbp", "  mov rsp, rbp", "  pop rbp",
       "  ret"] := by
  obtain ⟨l, r, d, s, h1, h2, h3, h4, h5⟩ :=
    c3_div_via_accumulator [IR.mk IRType.Div (some 0) (some 1)] 0
      ["  push rbp", "  mov rbp, rsp", "  mov rax, rdi", "  cqo", "  div rsi",
       "  mov rdi, rax", ".L0:", "  mov rsp, rbp", "  mov rsp, rbp", "  pop rbp",
       "  ret"]
      (IR.mk IRType.Div (some 0) (some 1)) rfl (by simp) rfl
  simp only at h1 h2
  injection h1 with h1
  injection h2 with h2
  subst h1
  subst h2
  rw [show (REGS[(0 : Nat)]?) = some ("rdi") from rfl] at h3
  rw [show (REGS[(1 : Nat)]?) = some ("rsi") from rfl] at h4
  injection h3 with h3
  injection h4 with h4
  subst h3
  subst h4
  exact h5

/-- C6 (amended): an instruction one of whose table-resolved register operands is at
or beyond the REGS length makes `genIR` fail at that instruction, and makes the
whole of `gen_x86` fail, for any IR sequence containing it; `Nop` and `Kill` resolve
no operands through the table and are excluded. -/
theorem c6_out_of_range_fails (ret : String) (irv : List IR) (n : Nat) (ir : IR)
    (hbad : usesOutOfRangeReg ir = true) :
    genIR ret ir = none ∧ (ir ∈ irv → gen_x86 irv n = none) :=
  ⟨genIR_none_bad ret ir hbad, fun hmem =>
    gen_x86_none irv n (gen_body_none _ irv ir hmem (genIR_none_bad _ ir hbad))⟩

/-- Witness for C6: a `Mov` whose rhs register id equals the table length (8) aborts
code generation of the one-instruction sequence. -/
theorem c6_witness :
    genIR (".L0") (IR.mk IRType.Mov (some 0) (some 8)) = none ∧
    gen_x86 [IR.mk IRType.Mov (some 0) (some 8)] 0 = none := by
  have h := c6_out_of_range_fails (".L0") [IR.mk IRType.Mov (some 0) (some 8)] 0
    (IR.mk IRType.Mov (some 0) (some 8)) (by decide)
  exact ⟨h.1, h.2 (by simp)⟩

/-- Counterexample to C6 as stated: a `Kill` carries a virtual-register id operand
at the table length (REGS has 8 entries), yet `gen_x86` succeeds, because the
`Kill` emission branch never resolves its operand through the table. -/
theorem c6_counterexample :
    REGS.length = 8 ∧
    gen_x86 [IR.mk IRType.Kill (some 8) none] 0 =
      some ["  push rbp", "  mov rbp, rsp", ".L0:", "  mov rsp, rbp",
        "  mov rsp, rbp", "  pop rbp", "  ret"] :=
  ⟨rfl, rfl⟩

/-- C10: the generator unwraps `ir.lhs` before dispatching on the opcode, so an
instruction with no lhs aborts generation even when its opcode is `Nop` or `Kill`,
whose emission branches emit nothing and never read the operand. -/
theorem c10_lhs_unwrap_first (ret : String) (irv : List IR) (n : Nat) (ir : IR)
    (hnone : ir.lhs = none) :
    genIR ret ir = none ∧ (ir ∈ irv → gen_x86 irv n = none) :=
  ⟨genIR_none_noLhs ret ir hnone, fun hmem =>
    gen_x86_none irv n (gen_body_none _ irv ir hmem (genIR_none_noLhs _ ir hnone))⟩

/-- Witness for C10: a lone `Nop` with no lhs aborts `gen_x86`, while the same `Nop`
with an (unused, even out-of-range) lhs succeeds. -/
theorem c10_witness :
    gen_x86 [IR.mk IRType.Nop none none] 0 = none ∧
    gen_x86 [IR.mk IRType.Nop (some 99) none] 0 =
      some ["  push rbp", "  mov rbp, rsp", ".L0:", "  mov rsp, rbp",
        "  mov rsp, rbp", "  pop rbp", "  ret"] :=
  ⟨(c10_lhs_unwrap_first (".L0") [IR.mk IRType.Nop none none] 0
      (IR.mk IRType.Nop none none) rfl).2 (by simp), rfl⟩

/- One-step unfolding lemmas for the expression parsers. -/

theorem assign_rhs_logor (f : Nat) (ts : List Token) (pos p q : Nat)
    (lhs rhs : Node) (t : Token)
    (h1 : logor f ts pos = Except.ok (lhs, p))
    (h2 : tokGet ts p = Except.ok t) (h3 : t.ty = TokenType.Equal)
    (h4 : logor f ts (p + 1) = Except.ok (rhs, q)) :
    assign (f + 1) ts pos = Except.ok (Node.new_binop TokenType.Equal lhs rhs, q) := by
  simp [assign, h1, consume_true h2 h3, h4, bindOk, pureEq]

theorem equalityTail_eq_once (f : Nat) (ts : List Token) (pos p : Nat)
    (lhs rhs : Node) (t : Token)
    (h2 : tokGet ts pos = Except.ok t) (h3 : t.ty = TokenType.EQ)
    (h4 : rel f ts (pos + 1) = Except.ok (rhs, p)) :
    equalityTail (f + 1) ts pos lhs =
      Except.ok (Node.new_binop TokenType.EQ lhs rhs, p) := by
  simp [equalityTail, h2, h3, h4, bindOk, pureEq]

theorem rel_gt_step (f : Nat) (ts : List Token) (pos p q : Nat)
    (na nb : Node) (t u : Token)
    (h1 : add (f + 2) ts pos = Except.ok (na, p))
    (h2 : tokGet ts p = Except.ok t) (h3 : t.ty = TokenType.RightAngleBracket)
    (h4 : add (f + 1) ts (p + 1) = Except.ok (nb, q))
    (h5 : tokGet ts q = Except.ok u)
    (h6 : u.ty ≠ TokenType.LeftAngleBracket) (h7 : u.ty ≠ TokenType.RightAngleBracket) :
    rel (f + 3) ts pos =
      Except.ok (Node.new_binop TokenType.LeftAngleBracket nb na, q) := by
  simp [rel, relLoop, h1, h2, h3, h4, h5, h6, h7, bindOk, pureEq]

theorem rel_lt_step (f : Nat) (ts : List Token) (pos p q : Nat)
    (na nb : Node) (t u : Token)
    (h1 : add (f + 2) ts pos = Except.ok (nb, p))
    (h2 : tokGet ts p = Except.ok t) (h3 : t.ty = TokenType.LeftAngleBracket)
    (h4 : add (f + 1) ts (p + 1) = Except.ok (na, q))
    (h5 : tokGet ts q = Except.ok u)
    (h6 : u.ty ≠ TokenType.LeftAngleBracket) (h7 : u.ty ≠ TokenType.RightAngleBracket) :
    rel (f + 3) ts pos =
      Except.ok (Node.new_binop TokenType.LeftAngleBracket nb na, q) := by
  simp [rel, relLoop, h1, h2, h3, h4, h5, h6, h7, bindOk, pureEq]

theorem unary_deref_mul (f : Nat) (ts : List Token) (pos p : Nat) (t : Token) (e : Node)
    (ht : tokGet ts pos = Except.ok t) (hty : t.ty = TokenType.Mul)
    (h : mul f ts (pos + 1) = Except.ok (e, p)) :
    unary (f + 1) ts pos = Except.ok (Node.new (NodeType.Deref e), p) := by
  simp [unary, consume_true ht hty, h, bindOk, pureEq]

theorem unary_addr_mul (f : Nat) (ts : List Token) (pos p : Nat) (t : Token) (e : Node)
    (ht : tokGet ts pos = Except.ok t) (hty : t.ty = TokenType.And)
    (h : mul f ts (pos + 1) = Except.ok (e, p)) :
    unary (f + 1) ts pos = Except.ok (Node.new (NodeType.Addr e), p) := by
  have c1 := consume_false ht (show t.ty ≠ TokenType.Mul by rw [hty]; decide)
  simp [unary, c1, consume_true ht hty, h, bindOk, pureEq]

theorem unary_sizeof_unary (f : Nat) (ts : List Token) (pos p : Nat) (t : Token) (e : Node)
    (ht : tokGet ts pos = Except.ok t) (hty : t.ty = TokenType.Sizeof)
    (h : unary f ts (pos + 1) = Except.ok (e, p)) :
    unary (f + 1) ts pos = Except.ok (Node.new (NodeType.Sizeof e), p) := by
  have c1 := consume_false ht (show t.ty ≠ TokenType.Mul by rw [hty]; decide)
  have c2 := consume_false ht (show t.ty ≠ TokenType.And by rw [hty]; decide)
  simp [unary, c1, c2, consume_true ht hty, h, bindOk, pureEq]

theorem unary_alignof_unary (f : Nat) (ts : List Token) (pos p : Nat) (t : Token) (e : Node)
    (ht : tokGet ts pos = Except.ok t) (hty : t.ty = TokenType.Alignof)
    (h : unary f ts (pos + 1) = Except.ok (e, p)) :
    unary (f + 1) ts pos = Except.ok (Node.new (NodeType.Alignof e), p) := by
  have c1 := consume_false ht (show t.ty ≠ TokenType.Mul by rw [hty]; decide)
  have c2 := consume_false ht (show t.ty ≠ TokenType.And by rw [hty]; decide)
  have c3 := consume_false ht (show t.ty ≠ TokenType.Sizeof by rw [hty]; decide)
  simp [unary, c1, c2, c3, consume_true ht hty, h, bindOk, pureEq]

/- The step lemmas of the RightAngleBracket-freedom invariant, one per parser
function of the mutual block, each assuming the invariant at the next-smaller
fuel. -/

theorem stepCallArgs (f : Nat) (ih : NoRABFacts f) :
    ∀ ts pos args r, callArgs (f + 1) ts pos args = Except.ok r →
      hasRABList args = false → hasRABList r.1 = false := by
  intro ts pos args r h ha
  rcases r with ⟨rl, rp⟩
  simp only [callArgs] at h
  cases hc : consume TokenType.Colon ts pos with
  | error e => simp [hc, bindErr] at h
  | ok bp =>
    obtain ⟨b, pos1⟩ := bp
    simp only [hc, bindOk] at h
    cases b with
    | false =>
      simp only [Bool.false_eq_true, if_false, pureEq, Except.ok.injEq, Prod.mk.injEq] at h
      obtain ⟨h1, h2⟩ := h
      subst h1
      exact ha
    | true =>
      simp only [if_true] at h
      cases ha2 : assign f ts pos1 with
      | error e => simp [ha2, bindErr] at h
      | ok ap =>
        obtain ⟨arg, pos2⟩ := ap
        simp only [ha2, bindOk] at h
        have harg := ih.hAssign ts pos1 _ ha2
        exact ih.hCallArgs ts pos2 (args ++ [arg]) (rl, rp) h
          (by simp only [hasRABList_append, hasRABList, ha, harg] at *
              simp [ha, harg])

theorem stepPfx (f : Nat) (ih : NoRABFacts f) :
    ∀ ts pos r, postfixExpr (f + 1) ts pos = Except.ok r → hasRAB r.1 = false := by
  intro ts pos r h
  simp only [postfixExpr] at h
  cases hp : primary f ts pos with
  | error e => simp [hp, bindErr] at h
  | ok np =>
    obtain ⟨n1, p1⟩ := np
    simp only [hp, bindOk] at h
    exact ih.hPfxLoop ts p1 n1 r h (ih.hPrimary ts pos _ hp)

theorem stepPfxLoop (f : Nat) (ih : NoRABFacts f) :
    ∀ ts pos lhs r, postfixLoop (f + 1) ts pos lhs = Except.ok r →
      hasRAB lhs = false → hasRAB r.1 = false := by
  intro ts pos lhs r h hl
  rcases r with ⟨rn, rp⟩
  simp only [postfixLoop] at h
  cases hc : consume TokenType.LeftBracket ts pos with
  | error e => simp [hc, bindErr] at h
  | ok bp =>
    obtain ⟨b, pos1⟩ := bp
    simp only [hc, bindOk] at h
    cases b with
    | false =>
      simp only [Bool.false_eq_true, if_false, pureEq, Except.ok.injEq, Prod.mk.injEq] at h
      obtain ⟨h1, h2⟩ := h
      subst h1
      exact hl
    | true =>
      simp only [if_true] at h
      cases ha : assign f ts pos1 with
      | error e => simp [ha, bindErr] at h
      | ok ap =>
        obtain ⟨idx, pos2⟩ := ap
        simp only [ha, bindOk] at h
        cases ht : tokGet ts pos2 with
        | error e => simp [ht, bindErr] at h
        | ok t =>
          simp only [ht, bindOk] at h
          cases he : expect TokenType.RightBracket t pos2 with
          | error e => simp [he, bindErr] at h
          | ok pos3 =>
            simp only [he, bindOk] at h
            refine ih.hPfxLoop ts pos3 _ _ h ?_
            have hidx := ih.hAssign ts pos1 _ ha
            simp only at hidx
            simp only [Node.new, hasRAB_mk, hasRABOp]
            rw [hasRAB_binop _ _ _ (by decide)]
            simp [hl, hidx]

theorem stepUnary (f : Nat) (ih : NoRABFacts f) :
    ∀ ts pos r, unary (f + 1) ts pos = Except.ok r → hasRAB r.1 = false := by
  intro ts pos r h
  rcases r with ⟨rn, rp⟩
  simp only [unary] at h
  cases hc1 : consume TokenType.Mul ts pos with
  | error e => simp [hc1, bindErr] at h
  | ok bp1 =>
    obtain ⟨b1, q1⟩ := bp1
    simp only [hc1, bindOk] at h
    cases b1 with
    | true =>
      simp only [if_true] at h
      cases hm : mul f ts q1 with
      | error e => simp [hm, bindErr] at h
      | ok ep =>
        obtain ⟨e, p⟩ := ep
        simp only [hm, bindOk, pureEq, Except.ok.injEq, Prod.mk.injEq] at h
        obtain ⟨h1, h2⟩ := h
        subst h1
        have he := ih.hMul ts q1 _ hm
        simp only at he
        simp [Node.new, hasRAB_mk, hasRABOp, he]
    | false =>
      simp only [Bool.false_eq_true, if_false] at h
      cases hc2 : consume TokenType.And ts pos with
      | error e => simp [hc2, bindErr] at h
      | ok bp2 =>
        obtain ⟨b2, q2⟩ := bp2
        simp only [hc2, bindOk] at h
        cases b2 with
        | true =>
          simp only [if_true] at h
          cases hm : mul f ts q2 with
          | error e => simp [hm, bindErr] at h
          | ok ep =>
            obtain ⟨e, p⟩ := ep
            simp only [hm, bindOk, pureEq, Except.ok.injEq, Prod.mk.injEq] at h
            obtain ⟨h1, h2⟩ := h
            subst h1
            have he := ih.hMul ts q2 _ hm
            simp only at he
            simp [Node.new, hasRAB_mk, hasRABOp, he]
        | false =>
          simp only [Bool.false_eq_true, if_false] at h
          cases hc3 : consume TokenType.Sizeof ts pos with
          | error e => simp [hc3, bindErr] at h
          | ok bp3 =>
            obtain ⟨b3, q3⟩ := bp3
            simp only [hc3, bindOk] at h
            cases b3 with
            | true =>
              simp only [if_true] at h
              cases hu : unary f ts q3 with
              | error e => simp [hu, bindErr] at h
              | ok ep =>
                obtain ⟨e, p⟩ := ep
                simp only [hu, bindOk, pureEq, Except.ok.injEq, Prod.mk.injEq] at h
                obtain ⟨h1, h2⟩ := h
                subst h1
                have he := ih.hUnary ts q3 _ hu
                simp only at he
                simp [Node.new, hasRAB_mk, hasRABOp, he]
            | false =>
              simp only [Bool.false_eq_true, if_false] at h
              cases hc4 : consume TokenType.Alignof ts pos with
              | error e => simp [hc4, bindErr] at h
              | ok bp4 =>
                obtain ⟨b4, q4⟩ := bp4
                simp only [hc4, bindOk] at h
                cases b4 with
                | true =>
                  simp only [if_true] at h
                  cases hu : unary f ts q4 with
                  | error e => simp [hu, bindErr] at h
                  | ok ep =>
                    obtain ⟨e, p⟩ := ep
                    simp only [hu, bindOk, pureEq, Except.ok.injEq, Prod.mk.injEq] at h
                    obtain ⟨h1, h2⟩ := h
                    subst h1
                    have he := ih.hUnary ts q4 _ hu
                    simp only at he
                    simp [Node.new, hasRAB_mk, hasRABOp, he]
                | false =>
                  simp only [Bool.false_eq_true, if_false] at h
                  exact ih.hPfx ts pos _ h

theorem stepMul (f : Nat) (ih : NoRABFacts f) :
    ∀ ts pos r, mul (f + 1) ts pos = Except.ok r → hasRAB r.1 = false := by
  intro ts pos r h
  simp only [mul] at h
  cases hu : unary f ts pos with
  | error e => simp [hu, bindErr] at h
  | ok np =>
    obtain ⟨n1, p1⟩ := np
    simp only [hu, bindOk] at h
    exact ih.hMulLoop ts p1 n1 r h (ih.hUnary ts pos _ hu)

theorem stepMulLoop (f : Nat) (ih : NoRABFacts f) :
    ∀ ts pos lhs r, mulLoop (f + 1) ts pos lhs = Except.ok r →
      hasRAB lhs = false → hasRAB r.1 = false := by
  intro ts pos lhs r h hl
  rcases r with ⟨rn, rp⟩
  simp only [mulLoop] at h
  by_cases hlen : ts.length = pos
  · rw [if_pos hlen] at h
    simp only [pureEq, Except.ok.injEq, Prod.mk.injEq] at h
    obtain ⟨h1, h2⟩ := h
    subst h1
    exact hl
  · rw [if_neg hlen] at h
    cases ht : tokGet ts pos with
    | error e => simp [ht, bindErr] at h
    | ok t =>
      simp only [ht, bindOk] at h
      by_cases hcond : t.ty ≠ TokenType.Mul ∧ t.ty ≠ TokenType.Div
      · rw [if_pos hcond] at h
        simp only [pureEq, Except.ok.injEq, Prod.mk.injEq] at h
        obtain ⟨h1, h2⟩ := h
        subst h1
        exact hl
      · rw [if_neg hcond] at h
        cases hu : unary f ts (pos + 1) with
        | error e => simp [hu, bindErr] at h
        | ok ep =>
          obtain ⟨rhs, pos1⟩ := ep
          simp only [hu, bindOk] at h
          refine ih.hMulLoop ts pos1 _ _ h ?_
          have hr := ih.hUnary ts (pos + 1) _ hu
          simp only at hr
          have hod : t.ty ≠ TokenType.RightAngleBracket := by
            rcases not_and_or.mp hcond with hh | hh <;>
              rw [not_not.mp hh] <;> decide
          rw [hasRAB_binop _ _ _ hod]
          simp [hl, hr]

theorem stepAdd (f : Nat) (ih : NoRABFacts f) :
    ∀ ts pos r, add (f + 1) ts pos = Except.ok r → hasRAB r.1 = false := by
  intro ts pos r h
  simp only [add] at h
  cases hu : mul f ts pos with
  | error e => simp [hu, bindErr] at h
  | ok np =>
    obtain ⟨n1, p1⟩ := np
    simp only [hu, bindOk] at h
    exact ih.hAddLoop ts p1 n1 r h (ih.hMul ts pos _ hu)

theorem stepAddLoop (f : Nat) (ih : NoRABFacts f) :
    ∀ ts pos lhs r, addLoop (f + 1) ts pos lhs = Except.ok r →
      hasRAB lhs = false → hasRAB r.1 = false := by
  intro ts pos lhs r h hl
  rcases r with ⟨rn, rp⟩
  simp only [addLoop] at h
  by_cases hlen : ts.length = pos
  · rw [if_pos hlen] at h
    simp only [pureEq, Except.ok.injEq, Prod.mk.injEq] at h
    obtain ⟨h1, h2⟩ := h
    subst h1
    exact hl
  · rw [if_neg hlen] at h
    cases ht : tokGet ts pos with
    | error e => simp [ht, bindErr] at h
    | ok t =>
      simp only [ht, bindOk] at h
      by_cases hcond : t.ty ≠ TokenType.Plus ∧ t.ty ≠ TokenType.Minus
      · rw [if_pos hcond] at h
        simp only [pureEq, Except.ok.injEq, Prod.mk.injEq] at h
        obtain ⟨h1, h2⟩ := h
        subst h1
        exact hl
      · rw [if_neg hcond] at h
        cases hu : mul f ts (pos + 1) with
        | error e => simp [hu, bindErr] at h
        | ok ep =>
          obtain ⟨rhs, pos1⟩ := ep
          simp only [hu, bindOk] at h
          refine ih.hAddLoop ts pos1 _ _ h ?_
          have hr := ih.hMul ts (pos + 1) _ hu
          simp only at hr
          have hod : t.ty ≠ TokenType.RightAngleBracket := by
            rcases not_and_or.mp hcond with hh | hh <;>
              rw [not_not.mp hh] <;> decide
          rw [hasRAB_binop _ _ _ hod]
          simp [hl, hr]

theorem stepRel (f : Nat) (ih : NoRABFacts f) :
    ∀ ts pos r, rel (f + 1) ts pos = Except.ok r → hasRAB r.1 = false := by
  intro ts pos r h
  simp only [rel] at h
  cases hu : add f ts pos with
  | error e => simp [hu, bindErr] at h
  | ok np =>
    obtain ⟨n1, p1⟩ := np
    simp only [hu, bindOk] at h
    exact ih.hRelLoop ts p1 n1 r h (ih.hAdd ts pos _ hu)

theorem stepRelLoop (f : Nat) (ih : NoRABFacts f) :
    ∀ ts pos lhs r, relLoop (f + 1) ts pos lhs = Except.ok r →
      hasRAB lhs = false → hasRAB r.1 = false := by
  intro ts pos lhs r h hl
  rcases r with ⟨rn, rp⟩
  simp only [relLoop] at h
  cases ht : tokGet ts pos with
  | error e => simp [ht, bindErr] at h
  | ok t =>
    simp only [ht, bindOk] at h
    by_cases h1 : t.ty = TokenType.LeftAngleBracket
    · rw [if_pos h1] at h
      cases ha : add f ts (pos + 1) with
      | error e => simp [ha, bindErr] at h
      | ok ep =>
        obtain ⟨rhs, pos1⟩ := ep
        simp only [ha, bindOk] at h
        refine ih.hRelLoop ts pos1 _ _ h ?_
        have hr := ih.hAdd ts (pos + 1) _ ha
        simp only at hr
        rw [hasRAB_binop _ _ _ (by decide)]
        simp [hl, hr]
    · rw [if_neg h1] at h
      by_cases h2 : t.ty = TokenType.RightAngleBracket
      · rw [if_pos h2] at h
        cases ha : add f ts (pos + 1) with
        | error e => simp [ha, bindErr] at h
        | ok ep =>
          obtain ⟨rhs, pos1⟩ := ep
          simp only [ha, bindOk] at h
          refine ih.hRelLoop ts pos1 _ _ h ?_
          have hr := ih.hAdd ts (pos + 1) _ ha
          simp only at hr
          rw [hasRAB_binop _ _ _ (by decide)]
          simp [hl, hr]
      · rw [if_neg h2] at h
        simp only [pureEq, Except.ok.injEq, Prod.mk.injEq] at h
        obtain ⟨he1, he2⟩ := h
        subst he1
        exact hl

theorem stepEquality (f : Nat) (ih : NoRABFacts f) :
    ∀ ts pos r, equality (f + 1) ts pos = Except.ok r → hasRAB r.1 = false := by
  intro ts pos r h
  simp only [equality] at h
  cases hu : rel f ts pos with
  | error e => simp [hu, bindErr] at h
  | ok np =>
    obtain ⟨n1, p1⟩ := np
    simp only [hu, bindOk] at h
    exact ih.hEqualityTail ts p1 n1 r h (ih.hRel ts pos _ hu)

theorem stepEqualityTail (f : Nat) (ih : NoRABFacts f) :
    ∀ ts pos lhs r, equalityTail (f + 1) ts pos lhs = Except.ok r →
      hasRAB lhs = false → hasRAB r.1 = false := by
  intro ts pos lhs r h hl
  rcases r with ⟨rn, rp⟩
  simp only [equalityTail] at h
  cases ht : tokGet ts pos with
  | error e => simp [ht, bindErr] at h
  | ok t =>
    simp only [ht, bindOk] at h
    by_cases hEQ : t.ty = TokenType.EQ
    · cases hr : rel f ts (pos + 1) with
      | error e => simp [hEQ, hr, bindErr, bindOk] at h
      | ok ep =>
        obtain ⟨rhs, p1⟩ := ep
        simp [hEQ, hr, bindOk, pureEq] at h
        obtain ⟨h1, h2⟩ := h
        have hr2 := ih.hRel ts (pos + 1) _ hr
        simp only at hr2
        rw [← h1]
        rw [hasRAB_binop _ _ _ (by decide)]
        simp [hl, hr2]
    · by_cases hNE : t.ty = TokenType.NE
      · cases hr : rel f ts (pos + 1) with
        | error e => simp [hEQ, hNE, hr, bindErr, bindOk] at h
        | ok ep =>
          obtain ⟨rhs, p1⟩ := ep
          simp [hEQ, hNE, hr, bindOk, pureEq] at h
          obtain ⟨h1, h2⟩ := h
          have hr2 := ih.hRel ts (pos + 1) _ hr
          simp only at hr2
          rw [← h1]
          rw [hasRAB_binop _ _ _ (by decide)]
          simp [hl, hr2]
      · simp [hEQ, hNE, bindOk, pureEq] at h
        obtain ⟨h1, h2⟩ := h
        rw [← h1]
        exact hl

theorem stepLogand (f : Nat) (ih : NoRABFacts f) :
    ∀ ts pos r, logand (f + 1) ts pos = Except.ok r → hasRAB r.1 = false := by
  intro ts pos r h
  simp only [logand] at h
  cases hu : equality f ts pos with
  | error e => simp [hu, bindErr] at h
  | ok np =>
    obtain ⟨n1, p1⟩ := np
    simp only [hu, bindOk] at h
    exact ih.hLogandLoop ts p1 n1 r h (ih.hEquality ts pos _ hu)

theorem stepLogandLoop (f : Nat) (ih : NoRABFacts f) :
    ∀ ts pos lhs r, logandLoop (f + 1) ts pos lhs = Except.ok r →
      hasRAB lhs = false → hasRAB r.1 = false := by
  intro ts pos lhs r h hl
  rcases r with ⟨rn, rp⟩
  simp only [logandLoop] at h
  cases ht : tokGet ts pos with
  | error e => simp [ht, bindErr] at h
  | ok t =>
    simp only [ht, bindOk] at h
    by_cases hc : t.ty ≠ TokenType.Logand
    · rw [if_pos hc] at h
      simp only [pureEq, Except.ok.injEq, Prod.mk.injEq] at h
      obtain ⟨h1, h2⟩ := h
      subst h1
      exact hl
    · rw [if_neg hc] at h
      cases he : equality f ts (pos + 1) with
      | error e => simp [he, bindErr] at h
      | ok ep =>
        obtain ⟨rhs, pos1⟩ := ep
        simp only [he, bindOk] at h
        refine ih.hLogandLoop ts pos1 _ _ h ?_
        have hr := ih.hEquality ts (pos + 1) _ he
        simp only at hr
        simp [Node.new, hasRAB_mk, hasRABOp, hl, hr]

theorem stepLogor (f : Nat) (ih : NoRABFacts f) :
    ∀ ts pos r, logor (f + 1) ts pos = Except.ok r → hasRAB r.1 = false := by
  intro ts pos r h
  simp only [logor] at h
  cases hu : logand f ts pos with
  | error e => simp [hu, bindErr] at h
  | ok np =>
    obtain ⟨n1, p1⟩ := np
    simp only [hu, bindOk] at h
    exact ih.hLogorLoop ts p1 n1 r h (ih.hLogand ts pos _ hu)

theorem stepLogorLoop (f : Nat) (ih : NoRABFacts f) :
    ∀ ts pos lhs r, logorLoop (f + 1) ts pos lhs = Except.ok r →
      hasRAB lhs = false → hasRAB r.1 = false := by
  intro ts pos lhs r h hl
  rcases r with ⟨rn, rp⟩
  simp only [logorLoop] at h
  cases ht : tokGet ts pos with
  | error e => simp [ht, bindErr] at h
  | ok t =>
    simp only [ht, bindOk] at h
    by_cases hc : t.ty ≠ TokenType.Logor
    · rw [if_pos hc] at h
      simp only [pureEq, Except.ok.injEq, Prod.mk.injEq] at h
      obtain ⟨h1, h2⟩ := h
      subst h1
      exact hl
    · rw [if_neg hc] at h
      cases he : logand f ts (pos + 1) with
      | error e => simp [he, bindErr] at h
      | ok ep =>
        obtain ⟨rhs, pos1⟩ := ep
        simp only [he, bindOk] at h
        refine ih.hLogorLoop ts pos1 _ _ h ?_
        have hr := ih.hLogand ts (pos + 1) _ he
        simp only at hr
        simp [Node.new, hasRAB_mk, hasRABOp, hl, hr]

theorem stepAssign (f : Nat) (ih : NoRABFacts f) :
    ∀ ts pos r, assign (f + 1) ts pos = Except.ok r → hasRAB r.1 = false := by
  intro ts pos r h
  rcases r with ⟨rn, rp⟩
  simp only [assign] at h
  cases hu : logor f ts pos with
  | error e => simp [hu, bindErr] at h
  | ok np =>
    obtain ⟨n1, p1⟩ := np
    simp only [hu, bindOk] at h
    cases hc : consume TokenType.Equal ts p1 with
    | error e => simp [hc, bindErr] at h
    | ok bp =>
      obtain ⟨b, pos1⟩ := bp
      simp only [hc, bindOk] at h
      cases b with
      | false =>
        simp only [Bool.false_eq_true, if_false, pureEq, Except.ok.injEq,
          Prod.mk.injEq] at h
        obtain ⟨h1, h2⟩ := h
        subst h1
        have ha := ih.hLogor ts pos (n1, p1) hu
        simp only at ha
        exact ha
      | true =>
        simp only [if_true] at h
        cases hu2 : logor f ts pos1 with
        | error e => simp [hu2, bindErr] at h
        | ok ep =>
          obtain ⟨rhs, pos2⟩ := ep
          simp only [hu2, bindOk, pureEq, Except.ok.injEq, Prod.mk.injEq] at h
          obtain ⟨h1, h2⟩ := h
          subst h1
          have ha := ih.hLogor ts pos _ hu
          have hb := ih.hLogor ts pos1 _ hu2
          simp only at ha hb
          rw [hasRAB_binop _ _ _ (by decide)]
          simp [ha, hb]

theorem stepExprStmt (f : Nat) (ih : NoRABFacts f) :
    ∀ ts pos r, expr_stmt (f + 1) ts pos = Except.ok r → hasRAB r.1 = false := by
  intro ts pos r h
  rcases r with ⟨rn, rp⟩
  simp only [expr_stmt] at h
  cases hu : assign f ts pos with
  | error e => simp [hu, bindErr] at h
  | ok np =>
    obtain ⟨e, p1⟩ := np
    simp only [hu, bindOk] at h
    cases ht : tokGet ts p1 with
    | error er => simp [ht, bindErr] at h
    | ok t =>
      simp only [ht, bindOk] at h
      cases he : expect TokenType.Semicolon t p1 with
      | error er => simp [he, bindErr] at h
      | ok pos2 =>
        simp only [he, bindOk, pureEq, Except.ok.injEq, Prod.mk.injEq] at h
        obtain ⟨h1, h2⟩ := h
        subst h1
        have ha := ih.hAssign ts pos _ hu
        simp only at ha
        simp [Node.new, hasRAB_mk, hasRABOp, ha]

theorem stepDecl (f : Nat) (ih : NoRABFacts f) :
    ∀ ts pos r, decl (f + 1) ts pos = Except.ok r → hasRAB r.1 = false := by
  intro ts pos r h
  rcases r with ⟨rn, rp⟩
  simp only [decl] at h
  cases hct : ctype f ts pos with
  | error e => simp [hct, bindErr] at h
  | ok typ =>
    obtain ⟨ty1, pos1⟩ := typ
    simp only [hct, bindOk] at h
    cases htk : tokGet ts pos1 with
    | error e => simp [htk, bindErr] at h
    | ok t =>
      simp only [htk, bindOk] at h
      split at h
      case _ name heq =>
        cases hra : read_array f ts (pos1 + 1) ty1 with
        | error e => simp [hra, bindErr] at h
        | ok typ2 =>
          obtain ⟨ty2, pos2⟩ := typ2
          simp only [hra, bindOk] at h
          cases hce : consume TokenType.Equal ts pos2 with
          | error e => simp [hce, bindErr] at h
          | ok bp =>
            obtain ⟨b, pos3⟩ := bp
            simp only [hce, bindOk] at h
            cases b with
            | false =>
              simp only [Bool.false_eq_true, if_false, pureEq, bindOk] at h
              cases htk2 : tokGet ts pos3 with
              | error e => simp [htk2, bindErr] at h
              | ok t2 =>
                simp only [htk2, bindOk] at h
                cases hex : expect TokenType.Semicolon t2 pos3 with
                | error e => simp [hex, bindErr] at h
                | ok pos4 =>
                  simp only [hex, bindOk, pureEq, Except.ok.injEq, Prod.mk.injEq] at h
                  obtain ⟨h1, h2⟩ := h
                  subst h1
                  simp [hasRAB_mk, hasRABOp, hasRABOpt]
            | true =>
              simp only [if_true] at h
              cases has : assign f ts pos3 with
              | error e => simp [has, bindErr, bindOk] at h
              | ok ep =>
                obtain ⟨e, pos4⟩ := ep
                simp only [has, bindOk, pureEq] at h
                cases htk2 : tokGet ts pos4 with
                | error er => simp [htk2, bindErr, bindOk] at h
                | ok t2 =>
                  simp only [htk2, bindOk] at h
                  cases hex : expect TokenType.Semicolon t2 pos4 with
                  | error er => simp [hex, bindErr, bindOk] at h
                  | ok pos5 =>
                    simp only [hex, bindOk, pureEq, Except.ok.injEq, Prod.mk.injEq] at h
                    obtain ⟨h1, h2⟩ := h
                    subst h1
                    have ha := ih.hAssign ts pos3 _ has
                    simp only at ha
                    simp [hasRAB_mk, hasRABOp, hasRABOpt, ha]
      case _ =>
        simp at h

theorem stepPrimary (f : Nat) (ih : NoRABFacts f) :
    ∀ ts pos r, primary (f + 1) ts pos = Except.ok r → hasRAB r.1 = false := by
  intro ts pos r h
  rcases r with ⟨rn, rp⟩
  simp only [primary] at h
  cases ht : tokGet ts pos with
  | error e => simp [ht, bindErr] at h
  | ok t =>
    simp only [ht, bindOk] at h
    split at h
    next val heq =>
      simp only [pureEq, Except.ok.injEq, Prod.mk.injEq] at h
      obtain ⟨h1, h2⟩ := h
      subst h1
      simp [hasRAB_mk, hasRABOp]
    next str len heq =>
      simp only [pureEq, Except.ok.injEq, Prod.mk.injEq] at h
      obtain ⟨h1, h2⟩ := h
      subst h1
      simp [hasRAB_mk, hasRABOp]
    next name heq =>
      cases hc1 : consume TokenType.LeftParen ts (pos + 1) with
      | error e => simp [hc1, bindErr] at h
      | ok bp =>
        obtain ⟨b, pos2⟩ := bp
        simp only [hc1, bindOk] at h
        cases b with
        | false =>
          simp only [Bool.not_false, if_true, pureEq, Except.ok.injEq,
            Prod.mk.injEq] at h
          obtain ⟨h1, h2⟩ := h
          subst h1
          simp [Node.new, hasRAB_mk, hasRABOp]
        | true =>
          simp only [Bool.not_true, Bool.false_eq_true, if_false] at h
          cases hc2 : consume TokenType.RightParen ts pos2 with
          | error e => simp [hc2, bindErr] at h
          | ok bp2 =>
            obtain ⟨b2, pos3⟩ := bp2
            simp only [hc2, bindOk] at h
            cases b2 with
            | true =>
              simp only [if_true, pureEq, Except.ok.injEq, Prod.mk.injEq] at h
              obtain ⟨h1, h2⟩ := h
              subst h1
              simp [Node.new, hasRAB_mk, hasRABOp, hasRABList]
            | false =>
              simp only [Bool.false_eq_true, if_false] at h
              cases ha : assign f ts pos3 with
              | error e => simp [ha, bindErr] at h
              | ok ap =>
                obtain ⟨arg, pos4⟩ := ap
                simp only [ha, bindOk] at h
                cases hca : callArgs f ts pos4 [arg] with
                | error e => simp [hca, bindErr] at h
                | ok asp =>
                  obtain ⟨args, pos5⟩ := asp
                  simp only [hca, bindOk] at h
                  cases ht2 : tokGet ts pos5 with
                  | error e => simp [ht2, bindErr] at h
                  | ok t2 =>
                    simp only [ht2, bindOk] at h
                    cases hex : expect TokenType.RightParen t2 pos5 with
                    | error e => simp [hex, bindErr] at h
                    | ok pos6 =>
                      simp only [hex, bindOk, pureEq, Except.ok.injEq,
                        Prod.mk.injEq] at h
                      obtain ⟨h1, h2⟩ := h
                      subst h1
                      have harg := ih.hAssign ts pos3 _ ha
                      simp only at harg
                      have hargs := ih.hCallArgs ts pos4 [arg] _ hca
                        (by simp [hasRABList, harg])
                      simp only at hargs
                      simp [Node.new, hasRAB_mk, hasRABOp, hargs]
    next heq =>
      cases hc1 : consume TokenType.LeftBrace ts (pos + 1) with
      | error e => simp [hc1, bindErr] at h
      | ok bp =>
        obtain ⟨b, pos2⟩ := bp
        simp only [hc1, bindOk] at h
        cases b with
        | true =>
          simp only [if_true] at h
          cases hcs : compound_stmt f ts pos2 with
          | error e => simp [hcs, bindErr] at h
          | ok sp =>
            obtain ⟨st, pos3⟩ := sp
            simp only [hcs, bindOk] at h
            cases ht2 : tokGet ts pos3 with
            | error e => simp [ht2, bindErr] at h
            | ok t2 =>
              simp only [ht2, bindOk] at h
              cases hex : expect TokenType.RightParen t2 pos3 with
              | error e => simp [hex, bindErr] at h
              | ok pos4 =>
                simp only [hex, bindOk, pureEq, Except.ok.injEq, Prod.mk.injEq] at h
                obtain ⟨h1, h2⟩ := h
                subst h1
                have hst := ih.hCompound ts pos2 _ hcs
                simp only at hst
                simp [Node.new, hasRAB_mk, hasRABOp, hst]
        | false =>
          simp only [Bool.false_eq_true, if_false] at h
          cases ha : assign f ts pos2 with
          | error e => simp [ha, bindErr] at h
          | ok ap =>
            obtain ⟨nd, pos3⟩ := ap
            simp only [ha, bindOk] at h
            cases ht2 : tokGet ts pos3 with
            | error e => simp [ht2, bindErr] at h
            | ok t2 =>
              simp only [ht2, bindOk] at h
              cases hex : expect TokenType.RightParen t2 pos3 with
              | error e => simp [hex, bindErr] at h
              | ok pos4 =>
                simp only [hex, bindOk, pureEq, Except.ok.injEq, Prod.mk.injEq] at h
                obtain ⟨h1, h2⟩ := h
                subst h1
                have hnd := ih.hAssign ts pos2 _ ha
                simp only at hnd
                exact hnd
    next heq =>
      simp at h

theorem stepStmtList (f : Nat) (ih : NoRABFacts f) :
    ∀ ts pos acc r, stmtList (f + 1) ts pos acc = Except.ok r →
      hasRABList acc = false → hasRABList r.1 = false := by
  intro ts pos acc r h ha
  rcases r with ⟨rl, rp⟩
  simp only [stmtList] at h
  cases hc : consume TokenType.RightBrace ts pos with
  | error e => simp [hc, bindErr] at h
  | ok bp =>
    obtain ⟨b, pos1⟩ := bp
    simp only [hc, bindOk] at h
    cases b with
    | true =>
      simp only [if_true, pureEq, Except.ok.injEq, Prod.mk.injEq] at h
      obtain ⟨h1, h2⟩ := h
      subst h1
      exact ha
    | false =>
      simp only [Bool.false_eq_true, if_false] at h
      cases hs : stmt f ts pos1 with
      | error e => simp [hs, bindErr] at h
      | ok sp =>
        obtain ⟨s, pos2⟩ := sp
        simp only [hs, bindOk] at h
        have hsr := ih.hStmt ts pos1 _ hs
        simp only at hsr
        exact ih.hStmtList ts pos2 (acc ++ [s]) _ h
          (by simp [hasRABList_append, hasRABList, ha, hsr])

theorem stepCompound (f : Nat) (ih : NoRABFacts f) :
    ∀ ts pos r, compound_stmt (f + 1) ts pos = Except.ok r → hasRAB r.1 = false := by
  intro ts pos r h
  rcases r with ⟨rn, rp⟩
  simp only [compound_stmt] at h
  cases hsl : stmtList f ts pos [] with
  | error e => simp [hsl, bindErr] at h
  | ok sp =>
    obtain ⟨stmts, pos1⟩ := sp
    simp only [hsl, bindOk, pureEq, Except.ok.injEq, Prod.mk.injEq] at h
    obtain ⟨h1, h2⟩ := h
    subst h1
    have hst := ih.hStmtList ts pos [] _ hsl (by simp [hasRABList])
    simp only at hst
    simp [Node.new, hasRAB_mk, hasRABOp, hst]

theorem stepStmt (f : Nat) (ih : NoRABFacts f) :
    ∀ ts pos r, stmt (f + 1) ts pos = Except.ok r → hasRAB r.1 = false := by
  intro ts pos r h
  rcases r with ⟨rn, rp⟩
  simp only [stmt] at h
  cases ht : tokGet ts pos with
  | error e => simp [ht, bindErr] at h
  | ok t =>
    simp only [ht, bindOk] at h
    split at h
    next heq =>
      exact ih.hDecl ts pos (rn, rp) h
    next heq =>
      exact ih.hDecl ts pos (rn, rp) h
    next heq =>
      cases ht1 : tokGet ts (pos + 1) with
      | error e => simp [ht1, bindErr] at h
      | ok t1 =>
        simp only [ht1, bindOk] at h
        cases he1 : expect TokenType.LeftParen t1 (pos + 1) with
        | error e => simp [he1, bindErr] at h
        | ok pos2 =>
          simp only [he1, bindOk] at h
          cases hcond : assign f ts pos2 with
          | error e => simp [hcond, bindErr] at h
          | ok cp =>
            obtain ⟨cond, pos3⟩ := cp
            simp only [hcond, bindOk] at h
            cases ht2 : tokGet ts pos3 with
            | error e => simp [ht2, bindErr] at h
            | ok t2 =>
              simp only [ht2, bindOk] at h
              cases he2 : expect TokenType.RightParen t2 pos3 with
              | error e => simp [he2, bindErr] at h
              | ok pos4 =>
                simp only [he2, bindOk] at h
                cases hthen : stmt f ts pos4 with
                | error e => simp [hthen, bindErr] at h
                | ok tp =>
                  obtain ⟨thenN, pos5⟩ := tp
                  simp only [hthen, bindOk] at h
                  cases hce : consume TokenType.Else ts pos5 with
                  | error e => simp [hce, bindErr] at h
                  | ok bp =>
                    obtain ⟨b, pos6⟩ := bp
                    simp only [hce, bindOk] at h
                    have hc := ih.hAssign ts pos2 _ hcond
                    have hth := ih.hStmt ts pos4 _ hthen
                    simp only at hc hth
                    cases b with
                    | true =>
                      simp only [if_true] at h
                      cases hels : stmt f ts pos6 with
                      | error e => simp [hels, bindErr] at h
                      | ok ep =>
                        obtain ⟨elsN, pos7⟩ := ep
                        simp only [hels, bindOk, pureEq, Except.ok.injEq,
                          Prod.mk.injEq] at h
                        obtain ⟨h1, h2⟩ := h
                        subst h1
                        have hel := ih.hStmt ts pos6 _ hels
                        simp only at hel
                        simp [Node.new, hasRAB_mk, hasRABOp, hasRABOpt, hc, hth, hel]
                    | false =>
                      simp only [Bool.false_eq_true, if_false, pureEq,
                        Except.ok.injEq, Prod.mk.injEq] at h
                      obtain ⟨h1, h2⟩ := h
                      subst h1
                      simp [Node.new, hasRAB_mk, hasRABOp, hasRABOpt, hc, hth]
    next heq =>
      cases ht1 : tokGet ts (pos + 1) with
      | error e => simp [ht1, bindErr] at h
      | ok t1 =>
        simp only [ht1, bindOk] at h
        cases he1 : expect TokenType.LeftParen t1 (pos + 1) with
        | error e => simp [he1, bindErr] at h
        | ok pos2 =>
          simp only [he1, bindOk] at h
          cases ht2 : tokGet ts pos2 with
          | error e => simp [ht2, bindErr] at h
          | ok t2 =>
            simp only [ht2, bindOk] at h
            have hinit : ∀ ip, (match get_type t2 with
                | some _ => decl f ts pos2
                | none => expr_stmt f ts pos2) = Except.ok ip →
                hasRAB ip.1 = false := by
              intro ip hip
              cases hg : get_type t2 with
              | some ty0 =>
                rw [hg] at hip
                exact ih.hDecl ts pos2 ip hip
              | none =>
                rw [hg] at hip
                exact ih.hExprStmt ts pos2 ip hip
            cases hi : (match get_type t2 with
                | some _ => decl f ts pos2
                | none => expr_stmt f ts pos2) with
            | error e => rw [hi] at h; simp [bindErr] at h
            | ok ip =>
              obtain ⟨init, pos3⟩ := ip
              rw [hi] at h
              simp only [bindOk] at h
              have hin := hinit _ hi
              simp only at hin
              cases hcond : assign f ts pos3 with
              | error e => simp [hcond, bindErr] at h
              | ok cp =>
                obtain ⟨cond, pos4⟩ := cp
                simp only [hcond, bindOk] at h
                cases ht3 : tokGet ts pos4 with
                | error e => simp [ht3, bindErr] at h
                | ok t3 =>
                  simp only [ht3, bindOk] at h
                  cases he2 : expect TokenType.Semicolon t3 pos4 with
                  | error e => simp [he2, bindErr] at h
                  | ok pos5 =>
                    simp only [he2, bindOk] at h
                    cases hinc : assign f ts pos5 with
                    | error e => simp [hinc, bindErr] at h
                    | ok icp =>
                      obtain ⟨incE, pos6⟩ := icp
                      simp only [hinc, bindOk] at h
                      cases ht4 : tokGet ts pos6 with
                      | error e => simp [ht4, bindErr] at h
                      | ok t4 =>
                        simp only [ht4, bindOk] at h
                        cases he3 : expect TokenType.RightParen t4 pos6 with
                        | error e => simp [he3, bindErr] at h
                        | ok pos7 =>
                          simp only [he3, bindOk] at h
                          cases hbody : stmt f ts pos7 with
                          | error e => simp [hbody, bindErr] at h
                          | ok bp =>
                            obtain ⟨body, pos8⟩ := bp
                            simp only [hbody, bindOk, pureEq, Except.ok.injEq,
                              Prod.mk.injEq] at h
                            obtain ⟨h1, h2⟩ := h
                            subst h1
                            have hc := ih.hAssign ts pos3 _ hcond
                            have hic := ih.hAssign ts pos5 _ hinc
                            have hb := ih.hStmt ts pos7 _ hbody
                            simp only at hc hic hb
                            simp [Node.new, hasRAB_mk, hasRABOp, hin, hc, hic, hb]
    next heq =>
      cases ht1 : tokGet ts (pos + 1) with
      | error e => simp [ht1, bindErr] at h
      | ok t1 =>
        simp only [ht1, bindOk] at h
        cases he1 : expect TokenType.LeftParen t1 (pos + 1) with
        | error e => simp [he1, bindErr] at h
        | ok pos2 =>
          simp only [he1, bindOk] at h
          cases hcond : assign f ts pos2 with
          | error e => simp [hcond, bindErr] at h
          | ok cp =>
            obtain ⟨cond, pos3⟩ := cp
            simp only [hcond, bindOk] at h
            cases ht2 : tokGet ts pos3 with
            | error e => simp [ht2, bindErr] at h
            | ok t2 =>
              simp only [ht2, bindOk] at h
              cases he2 : expect TokenType.RightParen t2 pos3 with
              | error e => simp [he2, bindErr] at h
              | ok pos4 =>
                simp only [he2, bindOk] at h
                cases hbody : stmt f ts pos4 with
                | error e => simp [hbody, bindErr] at h
                | ok bp =>
                  obtain ⟨body, pos5⟩ := bp
                  simp only [hbody, bindOk, pureEq, Except.ok.injEq,
                    Prod.mk.injEq] at h
                  obtain ⟨h1, h2⟩ := h
                  subst h1
                  have hc := ih.hAssign ts pos2 _ hcond
                  have hb := ih.hStmt ts pos4 _ hbody
                  simp only at hc hb
                  simp [Node.new, hasRAB_mk, hasRABOp, hc, hb]
    next heq =>
      cases hbody : stmt f ts (pos + 1) with
      | error e => simp [hbody, bindErr] at h
      | ok bp =>
        obtain ⟨body, pos2⟩ := bp
        simp only [hbody, bindOk] at h
        cases ht1 : tokGet ts pos2 with
        | error e => simp [ht1, bindErr] at h
        | ok t1 =>
          simp only [ht1, bindOk] at h
          cases he1 : expect TokenType.While t1 pos2 with
          | error e => simp [he1, bindErr] at h
          | ok pos3 =>
            simp only [he1, bindOk] at h
            cases ht2 : tokGet ts pos3 with
            | error e => simp [ht2, bindErr] at h
            | ok t2 =>
              simp only [ht2, bindOk] at h
              cases he2 : expect TokenType.LeftParen t2 pos3 with
              | error e => simp [he2, bindErr] at h
              | ok pos4 =>
                simp only [he2, bindOk] at h
                cases hcond : assign f ts pos4 with
                | error e => simp [hcond, bindErr] at h
                | ok cp =>
                  obtain ⟨cond, pos5⟩ := cp
                  simp only [hcond, bindOk] at h
                  cases ht3 : tokGet ts pos5 with
                  | error e => simp [ht3, bindErr] at h
                  | ok t3 =>
                    simp only [ht3, bindOk] at h
                    cases he3 : expect TokenType.RightParen t3 pos5 with
                    | error e => simp [he3, bindErr] at h
                    | ok pos6 =>
                      simp only [he3, bindOk] at h
                      cases ht4 : tokGet ts pos6 with
                      | error e => simp [ht4, bindErr] at h
                      | ok t4 =>
                        simp only [ht4, bindOk] at h
                        cases he4 : expect TokenType.Semicolon t4 pos6 with
                        | error e => simp [he4, bindErr] at h
                        | ok pos7 =>
                          simp only [he4, bindOk, pureEq, Except.ok.injEq,
                            Prod.mk.injEq] at h
                          obtain ⟨h1, h2⟩ := h
                          subst h1
                          have hb := ih.hStmt ts (pos + 1) _ hbody
                          have hc := ih.hAssign ts pos4 _ hcond
                          simp only at hb hc
                          simp [Node.new, hasRAB_mk, hasRABOp, hb, hc]
    next heq =>
      cases he : assign f ts (pos + 1) with
      | error e => simp [he, bindErr] at h
      | ok ep =>
        obtain ⟨e, pos2⟩ := ep
        simp only [he, bindOk] at h
        cases ht1 : tokGet ts pos2 with
        | error er => simp [ht1, bindErr] at h
        | ok t1 =>
          simp only [ht1, bindOk] at h
          cases he1 : expect TokenType.Semicolon t1 pos2 with
          | error er => simp [he1, bindErr] at h
          | ok pos3 =>
            simp only [he1, bindOk, pureEq, Except.ok.injEq, Prod.mk.injEq] at h
            obtain ⟨h1, h2⟩ := h
            subst h1
            have hr := ih.hAssign ts (pos + 1) _ he
            simp only at hr
            simp [Node.new, hasRAB_mk, hasRABOp, hr]
    next heq =>
      cases hsl : stmtList f ts (pos + 1) [] with
      | error e => simp [hsl, bindErr] at h
      | ok sp =>
        obtain ⟨stmts, pos2⟩ := sp
        simp only [hsl, bindOk, pureEq, Except.ok.injEq, Prod.mk.injEq] at h
        obtain ⟨h1, h2⟩ := h
        subst h1
        have hst := ih.hStmtList ts (pos + 1) [] _ hsl (by simp [hasRABList])
        simp only at hst
        simp [Node.new, hasRAB_mk, hasRABOp, hst]
    next heq =>
      simp only [pureEq, Except.ok.injEq, Prod.mk.injEq] at h
      obtain ⟨h1, h2⟩ := h
      subst h1
      simp [Node.new, hasRAB_mk, hasRABOp]
    next heq =>
      cases he : assign f ts pos with
      | error e => simp [he, bindErr] at h
      | ok ep =>
        obtain ⟨e, pos1⟩ := ep
        simp only [he, bindOk] at h
        cases ht1 : tokGet ts pos1 with
        | error er => simp [ht1, bindErr] at h
        | ok t1 =>
          simp only [ht1, bindOk] at h
          cases he1 : expect TokenType.Semicolon t1 pos1 with
          | error er => simp [he1, bindErr] at h
          | ok pos2 =>
            simp only [he1, bindOk, pureEq, Except.ok.injEq, Prod.mk.injEq] at h
            obtain ⟨h1, h2⟩ := h
            subst h1
            have hr := ih.hAssign ts pos _ he
            simp only at hr
            simp [Node.new, hasRAB_mk, hasRABOp, hr]

theorem noRAB_zero : NoRABFacts 0 := by
  constructor <;> intros <;>
    simp_all [primary, callArgs, postfixExpr, postfixLoop, unary, mul, mulLoop, add,
      addLoop, rel, relLoop, equality, equalityTail, logand, logandLoop, logor,
      logorLoop, assign, decl, expr_stmt, stmt, stmtList, compound_stmt]

theorem noRAB_facts : ∀ f, NoRABFacts f := by
  intro f
  induction f with
  | zero => exact noRAB_zero
  | succ f ih =>
    exact ⟨stepPrimary f ih, stepCallArgs f ih, stepPfx f ih, stepPfxLoop f ih,
      stepUnary f ih, stepMul f ih, stepMulLoop f ih, stepAdd f ih, stepAddLoop f ih,
      stepRel f ih, stepRelLoop f ih, stepEquality f ih, stepEqualityTail f ih,
      stepLogand f ih, stepLogandLoop f ih, stepLogor f ih, stepLogorLoop f ih,
      stepAssign f ih, stepDecl f ih, stepExprStmt f ih, stepStmt f ih,
      stepStmtList f ih, stepCompound f ih⟩

theorem param_noRAB (fuel : Nat) (ts : List Token) (pos : Nat) (r : Node × Nat)
    (h : param fuel ts pos = Except.ok r) : hasRAB r.1 = false := by
  rcases r with ⟨rn, rp⟩
  simp only [param] at h
  cases hc : ctype fuel ts pos with
  | error e => simp [hc, bindErr] at h
  | ok typ =>
    obtain ⟨ty1, pos1⟩ := typ
    simp only [hc, bindOk] at h
    cases ht : tokGet ts pos1 with
    | error e => simp [ht, bindErr] at h
    | ok t =>
      simp only [ht, bindOk] at h
      split at h
      next name heq =>
        simp only [pureEq, Except.ok.injEq, Prod.mk.injEq] at h
        obtain ⟨h1, h2⟩ := h
        subst h1
        simp [hasRAB_mk, hasRABOp, hasRABOpt]
      next heq =>
        simp at h

theorem paramList_noRAB : ∀ fuel ts pos args r,
    paramList fuel ts pos args = Except.ok r →
    hasRABList args = false → hasRABList r.1 = false := by
  intro fuel
  induction fuel with
  | zero =>
    intro ts pos args r h ha
    simp [paramList] at h
  | succ f ihp =>
    intro ts pos args r h ha
    rcases r with ⟨rl, rp⟩
    simp only [paramList] at h
    cases hc : consume TokenType.Colon ts pos with
    | error e => simp [hc, bindErr] at h
    | ok bp =>
      obtain ⟨b, pos1⟩ := bp
      simp only [hc, bindOk] at h
      cases b with
      | false =>
        simp only [Bool.false_eq_true, if_false, pureEq, Except.ok.injEq,
          Prod.mk.injEq] at h
        obtain ⟨h1, h2⟩ := h
        subst h1
        exact ha
      | true =>
        simp only [if_true] at h
        cases hp : param (f + 1) ts pos1 with
        | error e => simp [hp, bindErr] at h
        | ok pp =>
          obtain ⟨p, pos2⟩ := pp
          simp only [hp, bindOk] at h
          have hpn := param_noRAB (f + 1) ts pos1 _ hp
          simp only at hpn
          exact ihp ts pos2 (args ++ [p]) _ h
            (by simp [hasRABList_append, hasRABList, ha, hpn])


theorem toplevel_noRAB (fuel : Nat) (ts : List Token) (pos : Nat) (r : Node × Nat)
    (h : toplevel fuel ts pos = Except.ok r) : hasRAB r.1 = false := by
  rcases r with ⟨rn, rp⟩
  simp only [toplevel] at h
  cases hc0 : consume TokenType.Extern ts pos with
  | error e => simp [hc0, bindErr] at h
  | ok xp =>
    obtain ⟨isExt, pos1⟩ := xp
    simp only [hc0, bindOk] at h
    cases hct : ctype fuel ts pos1 with
    | error e => simp [hct, bindErr] at h
    | ok typ =>
      obtain ⟨ty1, pos2⟩ := typ
      simp only [hct, bindOk] at h
      cases ht : tokGet ts pos2 with
      | error e => simp [ht, bindErr] at h
      | ok t =>
        simp only [ht, bindOk] at h
        split at h
        next name heq =>
          cases hc1 : consume TokenType.LeftParen ts (pos2 + 1) with
          | error e => simp [hc1, bindErr] at h
          | ok bp =>
            obtain ⟨b, pos3⟩ := bp
            simp only [hc1, bindOk] at h
            cases b with
            | true =>
              simp only [if_true] at h
              cases hc2 : consume TokenType.RightParen ts pos3 with
              | error e => simp [hc2, bindErr] at h
              | ok bp2 =>
                obtain ⟨b2, pos4⟩ := bp2
                simp only [hc2, bindOk] at h
                have hrest : ∀ args pos5, hasRABList args = false →
                    ((do
                      let t3 ← tokGet ts pos5
                      let pos6 ← expect TokenType.LeftBrace t3 pos5
                      let (body, pos7) ← compound_stmt fuel ts pos6
                      pure (Node.new (NodeType.Func name args body 0), pos7) :
                        Except ParseErr (Node × Nat)) = Except.ok (rn, rp)) →
                    hasRAB rn = false := by
                  intro args pos5 hargs hh
                  cases ht3 : tokGet ts pos5 with
                  | error e => simp [ht3, bindErr] at hh
                  | ok t3 =>
                    simp only [ht3, bindOk] at hh
                    cases he1 : expect TokenType.LeftBrace t3 pos5 with
                    | error e => simp [he1, bindErr] at hh
                    | ok pos6 =>
                      simp only [he1, bindOk] at hh
                      cases hcs : compound_stmt fuel ts pos6 with
                      | error e => simp [hcs, bindErr] at hh
                      | ok cp =>
                        obtain ⟨body, pos7⟩ := cp
                        simp only [hcs, bindOk, pureEq, Except.ok.injEq,
                          Prod.mk.injEq] at hh
                        obtain ⟨h1, h2⟩ := hh
                        subst h1
                        have hb := (noRAB_facts fuel).hCompound ts pos6 _ hcs
                        simp only at hb
                        simp [Node.new, hasRAB_mk, hasRABOp, hargs, hb]
                cases b2 with
                | true =>
                  simp only [if_true, pureEq, bindOk] at h
                  exact hrest [] pos4 (by simp [hasRABList]) h
                | false =>
                  simp only [Bool.false_eq_true, if_false] at h
                  cases hp : param fuel ts pos4 with
                  | error e => simp [hp, bindErr] at h
                  | ok pp =>
                    obtain ⟨a, pos5⟩ := pp
                    simp only [hp, bindOk] at h
                    cases hpl : paramList fuel ts pos5 [a] with
                    | error e => simp [hpl, bindErr] at h
                    | ok ap =>
                      obtain ⟨args, pos6⟩ := ap
                      simp only [hpl, bindOk] at h
                      cases ht2 : tokGet ts pos6 with
                      | error e => simp [ht2, bindErr] at h
                      | ok t2 =>
                        simp only [ht2, bindOk] at h
                        cases he2 : expect TokenType.RightParen t2 pos6 with
                        | error e => simp [he2, bindErr] at h
                        | ok pos7 =>
                          simp only [he2, bindOk, pureEq] at h
                          have hpa := param_noRAB fuel ts pos4 _ hp
                          simp only at hpa
                          have hal := paramList_noRAB fuel ts pos5 [a] _ hpl
                            (by simp [hasRABList, hpa])
                          simp only at hal
                          exact hrest args pos7 hal h
            | false =>
              simp only [Bool.false_eq_true, if_false] at h
              cases hra : read_array fuel ts pos3 ty1 with
              | error e => simp [hra, bindErr] at h
              | ok typ2 =>
                obtain ⟨ty2, pos4⟩ := typ2
                simp only [hra, bindOk] at h
                cases ht2 : tokGet ts pos4 with
                | error e => simp [ht2, bindErr] at h
                | ok t2 =>
                  simp only [ht2, bindOk] at h
                  cases he2 : expect TokenType.Semicolon t2 pos4 with
                  | error e => simp [he2, bindErr] at h
                  | ok pos5 =>
                    simp only [he2, bindOk, pureEq, Except.ok.injEq,
                      Prod.mk.injEq] at h
                    obtain ⟨h1, h2⟩ := h
                    rw [← h1]
                    cases isExt <;> simp [hasRAB_mk, hasRABOp, hasRABOpt]
        next heq =>
          simp at h

theorem parseLoop_noRAB : ∀ fuel ts pos acc res,
    parseLoop fuel ts pos acc = Except.ok res →
    (∀ n ∈ acc, hasRAB n = false) → ∀ n ∈ res, hasRAB n = false := by
  intro fuel
  induction fuel with
  | zero =>
    intro ts pos acc res h ha
    simp [parseLoop] at h
  | succ f ihp =>
    intro ts pos acc res h ha
    simp only [parseLoop] at h
    by_cases hlen : ts.length = pos
    · rw [if_pos hlen] at h
      simp only [pureEq, Except.ok.injEq] at h
      subst h
      exact ha
    · rw [if_neg hlen] at h
      cases htl : toplevel (f + 1) ts pos with
      | error e => simp [htl, bindErr] at h
      | ok np =>
        obtain ⟨n1, pos1⟩ := np
        simp only [htl, bindOk] at h
        have hn1 := toplevel_noRAB (f + 1) ts pos _ htl
        simp only at hn1
        refine ihp ts pos1 (acc ++ [n1]) res h ?_
        intro n hn
        rcases List.mem_append.mp hn with hn | hn
        · exact ha n hn
        · rw [List.mem_singleton.mp hn]
          exact hn1

theorem parse_noRAB (fuel : Nat) (ts : List Token) (res : List Node)
    (h : parse fuel ts = Except.ok res) : ∀ n ∈ res, hasRAB n = false := by
  exact parseLoop_noRAB fuel ts 0 [] res h (by intro n hn; simp at hn)

/-- C2 (amended): `assign` allows at most one `=` per recursion level, parsing the
right-hand side with `logor` (not with `assign` recursively): after the left-hand
side, one `=` and one `logor` right-hand side are consumed and the parser returns
immediately; hence `a = b = c` parses as `BinOp(Equal, a, b)` consuming three of
the five tokens and leaving `= c` unconsumed, and as a full statement `a = b = c;`
is rejected with a `;`-expected error at the second `=`. -/
theorem c2_assign_single_equal :
    (∀ f ts pos p q lhs rhs t, logor f ts pos = Except.ok (lhs, p) →
      tokGet ts p = Except.ok t → t.ty = TokenType.Equal →
      logor f ts (p + 1) = Except.ok (rhs, q) →
      assign (f + 1) ts pos = Except.ok (Node.new_binop TokenType.Equal lhs rhs, q)) ∧
    assign 32 c2Tokens 0 =
      Except.ok (Node.new_binop TokenType.Equal (identNode ("a")) (identNode ("b")), 3) ∧
    stmt 32 (c2Tokens ++ [semiTk]) 0 =
      Except.error (ParseErr.expected TokenType.Semicolon TokenType.Equal) :=
  ⟨fun f ts pos p q lhs rhs t h1 h2 h3 h4 =>
    assign_rhs_logor f ts pos p q lhs rhs t h1 h2 h3 h4, rfl, rfl⟩

/-- Witness for C2 at `a = b = c`: one application of the single-equal step. -/
theorem c2_witness : assign 11 c2Tokens 0 =
    Except.ok (Node.new_binop TokenType.Equal (identNode ("a")) (identNode ("b")), 3) :=
  c2_assign_single_equal.1 10 c2Tokens 0 1 3 (identNode ("a")) (identNode ("b"))
    (tk TokenType.Equal ("=")) rfl rfl rfl rfl

/-- Counterexample to C2 as stated: on `a = b = c` the assign parser does not
return the right-associated `BinOp(Equal, a, BinOp(Equal, b, c))` having consumed
all five tokens; it stops after three tokens. -/
theorem c2_counterexample : assign 32 c2Tokens 0 ≠
    Except.ok (Node.new_binop TokenType.Equal (identNode ("a"))
      (Node.new_binop TokenType.Equal (identNode ("b")) (identNode ("c"))), 5) := by
  intro hcl
  rw [show assign 32 c2Tokens 0 = Except.ok
    (Node.new_binop TokenType.Equal (identNode ("a")) (identNode ("b")), 3) from rfl] at hcl
  simp only [Except.ok.injEq, Prod.mk.injEq] at hcl
  exact absurd hcl.2 (by decide)

/-- C4: the body of `equality`'s loop returns right after parsing one `==`
comparison, so `a == b == c` yields `BinOp(EQ, a, b)` with `== c` left unconsumed
(cursor at 3 of 6), and as a statement `a == b == c ;` is rejected with a
`;`-expected error at the second `==`. -/
theorem c4_equality_at_most_one :
    (∀ f ts pos p lhs rhs t, tokGet ts pos = Except.ok t → t.ty = TokenType.EQ →
      rel f ts (pos + 1) = Except.ok (rhs, p) →
      equalityTail (f + 1) ts pos lhs =
        Except.ok (Node.new_binop TokenType.EQ lhs rhs, p)) ∧
    equality 32 c4Tokens 0 =
      Except.ok (Node.new_binop TokenType.EQ (identNode ("a")) (identNode ("b")), 3) ∧
    stmt 32 c4Tokens 0 =
      Except.error (ParseErr.expected TokenType.Semicolon TokenType.EQ) :=
  ⟨fun f ts pos p lhs rhs t h1 h2 h3 =>
    equalityTail_eq_once f ts pos p lhs rhs t h1 h2 h3, rfl, rfl⟩

/-- Witness for C4 at `a == b == c ;`: one application of the single-comparison
step at the first `==`. -/
theorem c4_witness : equalityTail 11 c4Tokens 1 (identNode ("a")) =
    Except.ok (Node.new_binop TokenType.EQ (identNode ("a")) (identNode ("b")), 3) :=
  c4_equality_at_most_one.1 10 c4Tokens 1 3 (identNode ("a")) (identNode ("b"))
    (tk TokenType.EQ ("==")) rfl rfl rfl

/-- C5: the rel parser canonicalizes `a > b` into `BinOp(LeftAngleBracket, b, a)` —
the same node that `b < a` produces, so the two parses are identical — and no node
returned by `parse` ever contains a `RightAngleBracket` binary operator. -/
theorem c5_rel_canonicalization :
    (∀ f ts pos p q na nb t u ts' pos' p' q' t' u',
      add (f + 2) ts pos = Except.ok (na, p) →
      tokGet ts p = Except.ok t → t.ty = TokenType.RightAngleBracket →
      add (f + 1) ts (p + 1) = Except.ok (nb, q) →
      tokGet ts q = Except.ok u → u.ty ≠ TokenType.LeftAngleBracket →
      u.ty ≠ TokenType.RightAngleBracket →
      add (f + 2) ts' pos' = Except.ok (nb, p') →
      tokGet ts' p' = Except.ok t' → t'.ty = TokenType.LeftAngleBracket →
      add (f + 1) ts' (p' + 1) = Except.ok (na, q') →
      tokGet ts' q' = Except.ok u' → u'.ty ≠ TokenType.LeftAngleBracket →
      u'.ty ≠ TokenType.RightAngleBracket →
      rel (f + 3) ts pos =
        Except.ok (Node.new_binop TokenType.LeftAngleBracket nb na, q) ∧
      rel (f + 3) ts' pos' =
        Except.ok (Node.new_binop TokenType.LeftAngleBracket nb na, q')) ∧
    (∀ fuel ts res, parse fuel ts = Except.ok res → ∀ node ∈ res, hasRAB node = false) :=
  ⟨fun f ts pos p q na nb t u ts' pos' p' q' t' u'
      h1 h2 h3 h4 h5 h6 h7 g1 g2 g3 g4 g5 g6 g7 =>
    ⟨rel_gt_step f ts pos p q na nb t u h1 h2 h3 h4 h5 h6 h7,
     rel_lt_step f ts' pos' p' q' na nb t' u' g1 g2 g3 g4 g5 g6 g7⟩,
   fun fuel ts res h => parse_noRAB fuel ts res h⟩

/-- Witness for C5: `a > b ;` and `b < a ;` produce the same
`BinOp(LeftAngleBracket, b, a)` node, and the parse of
`int main ( ) { a > b ; }` contains no RightAngleBracket operator. -/
theorem c5_witness :
    rel 13 c5GtTokens 0 = Except.ok
      (Node.new_binop TokenType.LeftAngleBracket (identNode ("b")) (identNode ("a")), 3) ∧
    rel 13 c5LtTokens 0 = Except.ok
      (Node.new_binop TokenType.LeftAngleBracket (identNode ("b")) (identNode ("a")), 3) ∧
    hasRAB (Node.new (NodeType.Func ("main") []
      (Node.new (NodeType.CompStmt [Node.new (NodeType.ExprStmt
        (Node.new_binop TokenType.LeftAngleBracket (identNode ("b"))
          (identNode ("a"))))])) 0)) = false := by
  have h := c5_rel_canonicalization.1 10 c5GtTokens 0 1 3 (identNode ("a"))
    (identNode ("b")) (tk TokenType.RightAngleBracket (">")) semiTk
    c5LtTokens 0 1 3 (tk TokenType.LeftAngleBracket ("<")) semiTk
    rfl rfl rfl rfl rfl (by decide) (by decide)
    rfl rfl rfl rfl rfl (by decide) (by decide)
  have hp : parse 40 c5FnTokens = Except.ok
      [Node.new (NodeType.Func ("main") []
        (Node.new (NodeType.CompStmt [Node.new (NodeType.ExprStmt
          (Node.new_binop TokenType.LeftAngleBracket (identNode ("b"))
            (identNode ("a"))))])) 0)] := rfl
  exact ⟨h.1, h.2,
    c5_rel_canonicalization.2 40 c5FnTokens _ hp _ (List.mem_singleton.mpr rfl)⟩

/-- C7 (amended): prefix `*` and `&` delegate their operand to `mul`, while
`sizeof` and `_Alignof` delegate to `unary` itself recursively; `sizeof x + 1`
therefore parses as `(sizeof x) + 1` and grouping an additive operand under
`sizeof` requires parentheses (`sizeof (x + 1)` parses as one `Sizeof` node) —
but `sizeof - x` FAILS, because the grammar has no unary minus: `primary` rejects
the `-` token with a number-expected error. -/
theorem c7_unary_delegation :
    (∀ f ts pos t e p, tokGet ts pos = Except.ok t → t.ty = TokenType.Mul →
      mul f ts (pos + 1) = Except.ok (e, p) →
      unary (f + 1) ts pos = Except.ok (Node.new (NodeType.Deref e), p)) ∧
    (∀ f ts pos t e p, tokGet ts pos = Except.ok t → t.ty = TokenType.And →
      mul f ts (pos + 1) = Except.ok (e, p) →
      unary (f + 1) ts pos = Except.ok (Node.new (NodeType.Addr e), p)) ∧
    (∀ f ts pos t e p, tokGet ts pos = Except.ok t → t.ty = TokenType.Sizeof →
      unary f ts (pos + 1) = Except.ok (e, p) →
      unary (f + 1) ts pos = Except.ok (Node.new (NodeType.Sizeof e), p)) ∧
    (∀ f ts pos t e p, tokGet ts pos = Except.ok t → t.ty = TokenType.Alignof →
      unary f ts (pos + 1) = Except.ok (e, p) →
      unary (f + 1) ts pos = Except.ok (Node.new (NodeType.Alignof e), p)) ∧
    unary 32 c7MinusTokens 0 = Except.error (ParseErr.numberExpected ("-")) ∧
    add 32 c7AddTokens 0 = Except.ok (Node.new_binop TokenType.Plus
      (Node.new (NodeType.Sizeof (identNode ("x")))) (numNode 1), 4) ∧
    unary 32 c7ParenTokens 0 = Except.ok (Node.new (NodeType.Sizeof
      (Node.new_binop TokenType.Plus (identNode ("x")) (numNode 1))), 6) :=
  ⟨fun f ts pos t e p h1 h2 h3 => unary_deref_mul f ts pos p t e h1 h2 h3,
   fun f ts pos t e p h1 h2 h3 => unary_addr_mul f ts pos p t e h1 h2 h3,
   fun f ts pos t e p h1 h2 h3 => unary_sizeof_unary f ts pos p t e h1 h2 h3,
   fun f ts pos t e p h1 h2 h3 => unary_alignof_unary f ts pos p t e h1 h2 h3,
   rfl, rfl, rfl⟩

/-- Witness for C7: one application of the sizeof-delegation step on
`sizeof ( x + 1 ) ;`. -/
theorem c7_witness : unary 21 c7ParenTokens 0 =
    Except.ok (Node.new (NodeType.Sizeof
      (Node.new_binop TokenType.Plus (identNode ("x")) (numNode 1))), 6) :=
  c7_unary_delegation.2.2.1 20 c7ParenTokens 0 (tk TokenType.Sizeof ("sizeof"))
    (Node.new_binop TokenType.Plus (identNode ("x")) (numNode 1)) 6 rfl rfl rfl

/-- Counterexample to C7 as stated: parsing `sizeof - x` does not succeed — it
fails with the number-expected panic of `primary` on the `-` token, because the
grammar has no unary minus. -/
theorem c7_counterexample :
    unary 32 c7MinusTokens 0 = Except.error (ParseErr.numberExpected ("-")) ∧
    (unary 32 c7MinusTokens 0).toOption = none :=
  ⟨rfl, rfl⟩

/-- C8 (amended): parsing `int x` (no trailing semicolon) fails with no node
returned, but the failure is an out-of-range token access at index 2 (raised by
`consume` probing for `(` after the identifier), not an expect-`;` diagnostic;
moreover the diagnostic of `expect` depends only on the token kinds — it reports
the expected kind and the actual token's kind, never the raw source text. -/
theorem c8_int_x_failure :
    parse 32 c8Tokens = Except.error (ParseErr.oob 2) ∧
    (∀ ty t t' pos, t.ty = t'.ty → expect ty t pos = expect ty t' pos) ∧
    (∀ ty t pos, t.ty ≠ ty →
      expect ty t pos = Except.error (ParseErr.expected ty t.ty)) :=
  ⟨rfl, fun ty t t' pos h => by simp [expect, h], fun ty t pos h => by simp [expect, h]⟩

/-- Witness for C8: the expect diagnostic is unchanged when only the raw text of
the offending token changes. -/
theorem c8_witness :
    expect TokenType.Semicolon (tk (TokenType.Ident ("x")) ("x")) 2 =
      expect TokenType.Semicolon (tk (TokenType.Ident ("x")) ("other raw text")) 2 :=
  c8_int_x_failure.2.1 TokenType.Semicolon (tk (TokenType.Ident ("x")) ("x"))
    (tk (TokenType.Ident ("x")) ("other raw text")) 2 rfl

/-- Counterexample to C8 as stated: the failure on `int x` is not an error naming
`;` as expected with the actual token — it is the out-of-bounds access. -/
theorem c8_counterexample : parse 32 c8Tokens ≠
    Except.error (ParseErr.expected TokenType.Semicolon (TokenType.Ident ("x"))) := by
  intro hcl
  rw [show parse 32 c8Tokens = Except.error (ParseErr.oob 2) from rfl] at hcl
  simp at hcl

/-- C9: multiplication binds tighter than addition and addition and subtraction
are left-associative: `1+2*3` parses as `Plus(1, Mul(2,3))`, `2*3+1` parses as
`Plus(Mul(2,3), 1)`, and `1-2-3` parses as `Minus(Minus(1,2), 3)`. -/
theorem c9_precedence_and_associativity :
    add 32 c9PlusMulTokens 0 = Except.ok (Node.new_binop TokenType.Plus (numNode 1)
      (Node.new_binop TokenType.Mul (numNode 2) (numNode 3)), 5) ∧
    add 32 c9MulPlusTokens 0 = Except.ok (Node.new_binop TokenType.Plus
      (Node.new_binop TokenType.Mul (numNode 2) (numNode 3)) (numNode 1), 5) ∧
    add 32 c9MinusTokens 0 = Except.ok (Node.new_binop TokenType.Minus
      (Node.new_binop TokenType.Minus (numNode 1) (numNode 2)) (numNode 3), 5) :=
  ⟨rfl, rfl, rfl⟩
